import Mathlib

set_option maxRecDepth 16000

/-!
Verification development for the PEP header transform
(`pep_sphinx_extensions/pep_processor/transforms/pep_headers.py`).

The Python source is shallowly embedded: strings are processed as `List Char`
(ASCII assumptions are noted where Python's Unicode behaviour is wider),
raisable Python code is modelled with `Except`, and the in-place mutation of
the docutils document tree is modelled by explicit state passing.  Each
`Except` error value also carries the state of the mutated object at the time
the exception is raised, so that partial-mutation behaviour is observable.
-/

/-- Python exceptions that can escape the pure helpers of the module:
`ValueError` (from `int(...)` and from the explicit `raise` in
`_process_list_url`) and `IndexError` (from out-of-range list indexing such as
`parts[i]`). -/
inductive PyExc where
  | valueError (msg : String)
  | indexError (msg : String)
deriving Repr, DecidableEq

/-- ASCII model of Python `str.lower` on a single character
(`'A'..'Z'` map to `'a'..'z'`, everything else unchanged). -/
def lowerChar (c : Char) : Char :=
  if 65 ≤ c.toNat ∧ c.toNat ≤ 90 then Char.ofNat (c.toNat + 32) else c

/-- ASCII model of Python `str.upper` on a single character. -/
def upperChar (c : Char) : Char :=
  if 97 ≤ c.toNat ∧ c.toNat ≤ 122 then Char.ofNat (c.toNat - 32) else c

/-- The ASCII whitespace class of Python `str.strip()` and the regex `\s`. -/
def isPyWs (c : Char) : Bool :=
  c = ' ' || c = '\t' || c = '\n' || c = '\x0b' || c = '\x0c' || c = '\r'

/-- Python `str.strip()` (whitespace from both ends). -/
def stripWs (l : List Char) : List Char :=
  (l.dropWhile isPyWs).rdropWhile isPyWs

/-- Python `str.strip("/")` (slashes from both ends). -/
def stripSlashes (l : List Char) : List Char :=
  ((l.dropWhile fun c => c = '/').rdropWhile fun c => c = '/')

/-- Python `str.split("/")`: split at every slash, keeping empty pieces. -/
def splitSlash : List Char → List (List Char)
  | [] => [[]]
  | c :: cs =>
    match splitSlash cs with
    | [] => [[]]
    | p :: ps => if c = '/' then [] :: p :: ps else (c :: p) :: ps

/-- Python `str.removesuffix`. -/
def removeSuffix (l suffix : List Char) : List Char :=
  if suffix.isSuffixOf l then l.take (l.length - suffix.length) else l

/-- Python `str.title` on ASCII text: the first character of every run of
letters is uppercased and the rest lowercased; non-letters (which are not
cased) restart a word. -/
def pyTitleAux : Bool → List Char → List Char
  | _, [] => []
  | prevCased, c :: cs =>
    if c.isAlpha then
      (if prevCased then lowerChar c else upperChar c) :: pyTitleAux true cs
    else
      c :: pyTitleAux false cs

/-- Python `str.title` (applied with no preceding cased character). -/
def pyTitle (l : List Char) : List Char := pyTitleAux false l

/-- Python `str.replace("Sig", "SIG")`: non-overlapping left-to-right
replacement of every occurrence of `Sig` by `SIG`. -/
def replaceSig : List Char → List Char
  | 'S' :: 'i' :: 'g' :: rest => 'S' :: 'I' :: 'G' :: replaceSig rest
  | c :: cs => c :: replaceSig cs
  | [] => []

/-- The normalisation pipeline of `_process_list_url`:
`list_url.lower().strip().strip("/")` followed by `.split("/")`. -/
def urlParts (listUrl : List Char) : List (List Char) :=
  splitSlash (stripSlashes (stripWs (listUrl.map lowerChar)))

/-- Core of `_process_list_url` over character lists.  Mirrors the four shape
detectors of the Python function, including the possible `IndexError` from
`parts[parts.index(marker) + k]` and the explicit `ValueError` when no marker
segment is present. -/
def processListUrlCs (listUrl : List Char) : Except PyExc (List Char × List Char) :=
  let parts := urlParts listUrl
  match parts.findIdx? (fun p => p = ("archives".toList : List Char)) with
  | some i =>
    match parts.get? (i + 2) with
    | none => .error (.indexError "list index out of range")
    | some seg =>
      let listName := removeSuffix seg "@python.org".toList
      let urlType :=
        match parts.get? 6 with
        | some p6 =>
          if p6 = ("message".toList : List Char) ∨ p6 = ("thread".toList : List Char) then
            p6
          else "list".toList
        | none => "list".toList
      .ok (replaceSig (pyTitle listName), urlType)
  | none =>
    match parts.findIdx? (fun p => p = ("mailman3".toList : List Char)) with
    | some i =>
      match parts.get? (i + 2) with
      | none => .error (.indexError "list index out of range")
      | some seg =>
        .ok (replaceSig (pyTitle (removeSuffix seg ".python.org".toList)), "list".toList)
    | none =>
      match parts.findIdx? (fun p => p = ("pipermail".toList : List Char)) with
      | some i =>
        match parts.get? (i + 1) with
        | none => .error (.indexError "list index out of range")
        | some seg =>
          .ok (replaceSig (pyTitle seg),
               if 6 < parts.length then "message".toList else "list".toList)
      | none =>
        match parts.findIdx? (fun p => p = ("listinfo".toList : List Char)) with
        | some i =>
          match parts.get? (i + 1) with
          | none => .error (.indexError "list index out of range")
          | some seg => .ok (replaceSig (pyTitle seg), "list".toList)
        | none => .error (.valueError "Not a link to a mailing list, message or thread")

/-- `_process_list_url`: classify a mailing-list URL into
`(list name, url type)` or fail with a Python exception. -/
def _process_list_url (list_url : String) : Except PyExc (String × String) :=
  match processListUrlCs list_url.toList with
  | .ok (n, k) => .ok (String.mk n, String.mk k)
  | .error e => .error e

/-- `_pretty_thread`: format the classification as `"{list_name} {url_type}"`;
a `ValueError` from `_process_list_url` is caught and the input text is
returned unchanged, while any other exception propagates. -/
def _pretty_thread (text : String) : Except PyExc String :=
  match _process_list_url text with
  | .ok (listName, urlType) => .ok (listName ++ " " ++ urlType)
  | .error (.valueError _) => .ok text
  | .error (.indexError m) => .error (.indexError m)

example :
    _process_list_url "https://mail.python.org/archives/list/sig-sig@python.org/thread/abcd"
      = .ok ("SIG-SIG", "thread") := by rfl

example :
    _process_list_url "https://mail.python.org/mailman3/lists/ideas.python.org/"
      = .ok ("Ideas", "list") := by rfl

example :
    _process_list_url "https://mail.python.org/pipermail/ideas/2020-January/000123.html"
      = .ok ("Ideas", "message") := by rfl

example :
    _process_list_url "https://mail.python.org/mailman/listinfo/python-dev"
      = .ok ("Python-Dev", "list") := by rfl

example :
    _pretty_thread "no url here" = .ok "no url here" := by rfl

theorem splitSlash_ne_nil (l : List Char) : splitSlash l ≠ [] := by
  cases l with
  | nil => simp [splitSlash]
  | cons c cs =>
    unfold splitSlash
    cases h : splitSlash cs with
    | nil => simp
    | cons p ps => dsimp only; split <;> simp

/-- Every piece produced by `splitSlash` is slash-free (the separator is
consumed). -/
theorem splitSlash_no_slash : ∀ (l : List Char), ∀ p ∈ splitSlash l, '/' ∉ p := by
  intro l
  induction l with
  | nil =>
    intro p hp
    simp only [splitSlash, List.mem_singleton] at hp
    subst hp
    simp
  | cons c cs ih =>
    intro p hp
    unfold splitSlash at hp
    cases h : splitSlash cs with
    | nil => exact absurd h (splitSlash_ne_nil cs)
    | cons q qs =>
      rw [h] at hp
      dsimp only at hp
      have hq : q ∈ splitSlash cs := by
        rw [h]
        exact List.mem_cons_self q qs
      by_cases hc : c = '/'
      · rw [if_pos hc] at hp
        rcases List.mem_cons.mp hp with h1 | h1
        · subst h1
          simp
        · exact ih p (h ▸ h1)
      · rw [if_neg hc] at hp
        rcases List.mem_cons.mp hp with h1 | h1
        · subst h1
          intro hmem
          rcases List.mem_cons.mp hmem with h2 | h2
          · exact hc h2.symm
          · exact ih q hq h2
        · exact ih p (by rw [h]; exact List.mem_cons_of_mem q h1)

/-- A slash-free list is split into the single piece consisting of itself. -/
theorem splitSlash_single {l : List Char} (h : '/' ∉ l) : splitSlash l = [l] := by
  induction l with
  | nil => rfl
  | cons c cs ih =>
    have hc : c ≠ '/' := fun hcc => h (hcc ▸ List.mem_cons_self c cs)
    have hcs : '/' ∉ cs := fun hm => h (List.mem_cons_of_mem c hm)
    unfold splitSlash
    rw [ih hcs]
    simp [hc]

theorem removeSuffix_subset (l suffix : List Char) : removeSuffix l suffix ⊆ l := by
  unfold removeSuffix
  split
  · exact List.take_subset _ l
  · exact fun _ h => h

theorem char_toNat_ofNat_lt {n : Nat} (h : n < 55296) : (Char.ofNat n).toNat = n := by
  simp [Char.ofNat, Char.ofNatAux, Char.toNat, Nat.isValidChar, h, UInt32.toNat]

theorem lowerChar_ne_slash {c : Char} (h : c ≠ '/') : lowerChar c ≠ '/' := by
  unfold lowerChar
  split
  · rename_i hrange
    intro hEq
    have h1 : (Char.ofNat (c.toNat + 32)).toNat = c.toNat + 32 :=
      char_toNat_ofNat_lt (by omega)
    rw [hEq] at h1
    have h2 : ('/' : Char).toNat = 47 := by decide
    omega
  · exact h

theorem upperChar_ne_slash {c : Char} (h : c ≠ '/') : upperChar c ≠ '/' := by
  unfold upperChar
  split
  · rename_i hrange
    intro hEq
    have h1 : (Char.ofNat (c.toNat - 32)).toNat = c.toNat - 32 :=
      char_toNat_ofNat_lt (by omega)
    rw [hEq] at h1
    have h2 : ('/' : Char).toNat = 47 := by decide
    omega
  · exact h

theorem map_lowerChar_no_slash {l : List Char} (h : '/' ∉ l) : '/' ∉ l.map lowerChar := by
  intro hm
  rcases List.mem_map.mp hm with ⟨d, hd, hdl⟩
  exact lowerChar_ne_slash (fun hdd => h (hdd ▸ hd)) hdl

theorem pyTitleAux_no_slash {l : List Char} (h : '/' ∉ l) :
    ∀ b, '/' ∉ pyTitleAux b l := by
  induction l with
  | nil => intro b; simp [pyTitleAux]
  | cons c cs ih =>
    intro b
    have hc : c ≠ '/' := fun hcc => h (hcc ▸ List.mem_cons_self c cs)
    have hcs : '/' ∉ cs := fun hm => h (List.mem_cons_of_mem c hm)
    unfold pyTitleAux
    split
    · intro hmem
      rcases List.mem_cons.mp hmem with h1 | h1
      · cases b <;> simp only [Bool.false_eq_true, if_true, if_false] at h1
        · exact upperChar_ne_slash hc h1.symm
        · exact lowerChar_ne_slash hc h1.symm
      · exact ih hcs true h1
    · intro hmem
      rcases List.mem_cons.mp hmem with h1 | h1
      · exact hc h1.symm
      · exact ih hcs false h1

theorem replaceSig_no_slash : ∀ (l : List Char), '/' ∉ l → '/' ∉ replaceSig l := by
  intro l
  induction l using replaceSig.induct with
  | case1 rest ih =>
    intro h hm
    have hrest : '/' ∉ rest := fun hr => h (by simp [hr])
    simp only [replaceSig] at hm
    rcases List.mem_cons.mp hm with h1 | hm
    · exact absurd h1.symm (by decide)
    rcases List.mem_cons.mp hm with h1 | hm
    · exact absurd h1.symm (by decide)
    rcases List.mem_cons.mp hm with h1 | hm
    · exact absurd h1.symm (by decide)
    · exact ih hrest hm
  | case2 c cs hne ih =>
    intro h hm
    have hc : c ≠ '/' := fun hcc => h (hcc ▸ List.mem_cons_self c cs)
    have hcs : '/' ∉ cs := fun hr => h (List.mem_cons_of_mem c hr)
    rw [replaceSig.eq_2 c cs hne] at hm
    rcases List.mem_cons.mp hm with h1 | h1
    · exact hc h1.symm
    · exact ih hcs h1
  | case3 =>
    intro h hm
    simp [replaceSig] at hm

theorem no_slash_postprocess {seg : List Char} (hseg : '/' ∉ seg) :
    '/' ∉ replaceSig (pyTitle seg) :=
  replaceSig_no_slash _ (pyTitleAux_no_slash hseg false)

theorem no_slash_postprocess_suffix {seg suffix : List Char} (hseg : '/' ∉ seg) :
    '/' ∉ replaceSig (pyTitle (removeSuffix seg suffix)) :=
  no_slash_postprocess (fun hm => hseg (removeSuffix_subset seg suffix hm))

/-- Structure of a successful classification: the produced list name is
slash-free (it descends from a single slash-separated URL segment) and the
produced url type is one of the three literal kinds. -/
theorem processListUrlCs_ok_shape {cs n k : List Char}
    (h : processListUrlCs cs = .ok (n, k)) :
    '/' ∉ n ∧ (k = "list".toList ∨ k = "message".toList ∨ k = "thread".toList) := by
  simp only [processListUrlCs] at h
  split at h
  · -- archives marker found
    rename_i i hidx
    split at h
    · exact absurd h (by simp)
    · rename_i seg hseg
      have hsegmem : '/' ∉ seg :=
        splitSlash_no_slash _ seg (List.get?_mem hseg)
      split at h
      · -- parts.get? 6 = some p6
        rename_i p6 hp6
        split at h
        · rename_i hkind
          injection h with h'
          injection h' with hn hk
          subst hn
          subst hk
          refine ⟨no_slash_postprocess_suffix hsegmem, ?_⟩
          rcases hkind with h6 | h6 <;> simp [h6]
        · injection h with h'
          injection h' with hn hk
          subst hn
          subst hk
          exact ⟨no_slash_postprocess_suffix hsegmem, Or.inl rfl⟩
      · injection h with h'
        injection h' with hn hk
        subst hn
        subst hk
        exact ⟨no_slash_postprocess_suffix hsegmem, Or.inl rfl⟩
  · -- no archives marker
    split at h
    · -- mailman3 marker found
      rename_i i hidx
      split at h
      · exact absurd h (by simp)
      · rename_i seg hseg
        have hsegmem : '/' ∉ seg :=
          splitSlash_no_slash _ seg (List.get?_mem hseg)
        injection h with h'
        injection h' with hn hk
        subst hn
        subst hk
        exact ⟨no_slash_postprocess_suffix hsegmem, Or.inl rfl⟩
    · split at h
      · -- pipermail marker found
        rename_i i hidx
        split at h
        · exact absurd h (by simp)
        · rename_i seg hseg
          have hsegmem : '/' ∉ seg :=
            splitSlash_no_slash _ seg (List.get?_mem hseg)
          injection h with h'
          injection h' with hn hk
          subst hn
          refine ⟨no_slash_postprocess hsegmem, ?_⟩
          split at hk <;> subst hk
          · exact Or.inr (Or.inl rfl)
          · exact Or.inl rfl
      · split at h
        · -- listinfo marker found
          rename_i i hidx
          split at h
          · exact absurd h (by simp)
          · rename_i seg hseg
            have hsegmem : '/' ∉ seg :=
              splitSlash_no_slash _ seg (List.get?_mem hseg)
            injection h with h'
            injection h' with hn hk
            subst hn
            subst hk
            exact ⟨no_slash_postprocess hsegmem, Or.inl rfl⟩
        · exact absurd h (by simp)

theorem rdropWhile_append_keep {α : Type _} (p : α → Bool) (xs ys : List α)
    (hys : ys ≠ []) (hid : ys.rdropWhile p = ys) :
    (xs ++ ys).rdropWhile p = xs ++ ys := by
  unfold List.rdropWhile at hid ⊢
  rw [List.reverse_append, List.dropWhile_append]
  have h1 : List.dropWhile p ys.reverse = ys.reverse := by
    have h2 := congrArg List.reverse hid
    rw [List.reverse_reverse] at h2
    exact h2
  rw [h1]
  have h2 : (ys.reverse).isEmpty = false := by
    cases hys' : ys.reverse with
    | nil => exact absurd (List.reverse_eq_nil_iff.mp hys') hys
    | cons a as => rfl
  simp [h2]

/-- If the normalised URL consists of a single segment that is none of the
four marker segments, classification fails with the `ValueError`. -/
theorem processListUrlCs_single_nonmarker {cs p : List Char}
    (hparts : urlParts cs = [p])
    (h1 : p ≠ "archives".toList) (h2 : p ≠ "mailman3".toList)
    (h3 : p ≠ "pipermail".toList) (h4 : p ≠ "listinfo".toList) :
    processListUrlCs cs
      = .error (.valueError "Not a link to a mailing list, message or thread") := by
  simp only [processListUrlCs, hparts, List.findIdx?_cons, List.findIdx?_nil, h1, h2, h3, h4,
    decide_eq_true_eq, if_neg, decide_False]
  simp [h1, h2, h3, h4]

/-- Re-classifying a produced label `name ++ " " ++ kind`: the label contains
no slash, so it normalises to a single segment which either still contains the
space separating name and kind, or (when the name is all-whitespace) is the
kind itself; in both cases it is not a marker segment, so classification fails
with the recoverable `ValueError`. -/
theorem processListUrlCs_label {nc kc : List Char} (hn : '/' ∉ nc)
    (hk : kc = "list".toList ∨ kc = "message".toList ∨ kc = "thread".toList) :
    processListUrlCs (nc ++ ' ' :: kc)
      = .error (.valueError "Not a link to a mailing list, message or thread") := by
  have hkc : kc ≠ [] := by rcases hk with h | h | h <;> subst h <;> decide
  have hkdw : kc.dropWhile isPyWs = kc := by rcases hk with h | h | h <;> subst h <;> decide
  have hkrd : kc.rdropWhile isPyWs = kc := by rcases hk with h | h | h <;> subst h <;> decide
  have hkdws : kc.dropWhile (fun c => decide (c = '/')) = kc := by
    rcases hk with h | h | h <;> subst h <;> decide
  have hkrds : kc.rdropWhile (fun c => decide (c = '/')) = kc := by
    rcases hk with h | h | h <;> subst h <;> decide
  have hkns : '/' ∉ kc := by rcases hk with h | h | h <;> subst h <;> decide
  have hklow : kc.map lowerChar = kc := by rcases hk with h | h | h <;> subst h <;> decide
  have hmap : (nc ++ ' ' :: kc).map lowerChar = (nc.map lowerChar) ++ ' ' :: kc := by
    rw [List.map_append, List.map_cons, hklow]
    norm_num [show lowerChar ' ' = ' ' from by decide]
  have hLns : '/' ∉ nc.map lowerChar := map_lowerChar_no_slash hn
  have hwsk : (' ' :: kc).rdropWhile isPyWs = ' ' :: kc :=
    rdropWhile_append_keep isPyWs [' '] kc hkc hkrd
  have hslk : (' ' :: kc).rdropWhile (fun c => decide (c = '/')) = ' ' :: kc :=
    rdropWhile_append_keep _ [' '] kc hkc hkrds
  by_cases hE : ((nc.map lowerChar).dropWhile isPyWs).isEmpty
  · -- the lowered name is all whitespace: the single segment is the kind
    have hstrip : stripWs ((nc.map lowerChar) ++ ' ' :: kc) = kc := by
      unfold stripWs
      rw [List.dropWhile_append, if_pos hE, List.dropWhile_cons_of_pos (by decide), hkdw]
      exact hkrd
    have hparts : urlParts (nc ++ ' ' :: kc) = [kc] := by
      unfold urlParts
      rw [hmap, hstrip]
      unfold stripSlashes
      rw [hkdws, hkrds]
      exact splitSlash_single hkns
    refine processListUrlCs_single_nonmarker hparts ?_ ?_ ?_ ?_ <;>
      rcases hk with h | h | h <;> subst h <;> decide
  · -- the lowered name contains a non-whitespace character:
    -- the single segment keeps the separating space
    have hD : (nc.map lowerChar).dropWhile isPyWs ≠ [] := by
      intro hnil
      rw [hnil] at hE
      exact hE rfl
    have hDns : '/' ∉ (nc.map lowerChar).dropWhile isPyWs := fun hm =>
      hLns ((List.dropWhile_sublist isPyWs).subset hm)
    have hstrip : stripWs ((nc.map lowerChar) ++ ' ' :: kc)
        = ((nc.map lowerChar).dropWhile isPyWs) ++ ' ' :: kc := by
      unfold stripWs
      rw [List.dropWhile_append, if_neg (by simp [hE])]
      exact rdropWhile_append_keep isPyWs _ (' ' :: kc) (by simp) hwsk
    have hPns : '/' ∉ ((nc.map lowerChar).dropWhile isPyWs) ++ ' ' :: kc := by
      intro hm
      rcases List.mem_append.mp hm with hm | hm
      · exact hDns hm
      · rcases List.mem_cons.mp hm with hm | hm
        · exact absurd hm.symm (by decide)
        · exact hkns hm
    have hDslash : ((nc.map lowerChar).dropWhile isPyWs).dropWhile (fun c => decide (c = '/'))
        = (nc.map lowerChar).dropWhile isPyWs := by
      rw [List.dropWhile_eq_self_iff]
      intro hl
      simp only [decide_eq_true_eq]
      exact fun hc => hDns (hc ▸ List.get_mem _ _ _)
    have hstripS : stripSlashes (((nc.map lowerChar).dropWhile isPyWs) ++ ' ' :: kc)
        = ((nc.map lowerChar).dropWhile isPyWs) ++ ' ' :: kc := by
      unfold stripSlashes
      rw [List.dropWhile_append, hDslash, if_neg (by simp [hD])]
      exact rdropWhile_append_keep _ _ (' ' :: kc) (by simp) hslk
    have hparts : urlParts (nc ++ ' ' :: kc)
        = [((nc.map lowerChar).dropWhile isPyWs) ++ ' ' :: kc] := by
      unfold urlParts
      rw [hmap, hstrip, hstripS]
      exact splitSlash_single hPns
    have hsp : ' ' ∈ ((nc.map lowerChar).dropWhile isPyWs) ++ ' ' :: kc :=
      List.mem_append.mpr (Or.inr (List.mem_cons_self _ _))
    refine processListUrlCs_single_nonmarker hparts ?_ ?_ ?_ ?_ <;>
      · intro heq
        rw [heq] at hsp
        exact absurd hsp (by decide)

/-- C8: classification is idempotent in the soft-failure sense.  Whenever the
classifier succeeds on a URL, producing the label `"{list_name} {url_type}"`,
feeding that label back into `_pretty_thread` fails soft (the `ValueError`
path) and returns the label unchanged: the label never matches any of the
four URL shape detectors. -/
theorem pretty_thread_idempotent_on_labels (s n k : String)
    (h : _process_list_url s = .ok (n, k)) :
    _pretty_thread (n ++ " " ++ k) = .ok (n ++ " " ++ k) := by
  unfold _process_list_url at h
  cases hc : processListUrlCs s.toList with
  | error e =>
    rw [hc] at h
    exact absurd h (by simp)
  | ok p =>
    rw [hc] at h
    cases p with
    | mk nc kc =>
      simp only [] at h
      injection h with h'
      injection h' with hn hk
      subst hn
      subst hk
      obtain ⟨hns, hks⟩ := processListUrlCs_ok_shape hc
      unfold _pretty_thread _process_list_url
      have harg : (String.mk nc ++ " " ++ String.mk kc).toList = nc ++ ' ' :: kc := by
        simp [String.toList]
      rw [harg, processListUrlCs_label hns hks]

/-- C8 witness: a concrete successful classification followed by the
idempotence theorem applied at it. -/
theorem pretty_thread_idempotent_on_labels_witness :
    _process_list_url "https://mail.python.org/archives/list/sig-sig@python.org/thread/abcd"
        = .ok ("SIG-SIG", "thread") ∧
      _pretty_thread ("SIG-SIG" ++ " " ++ "thread") = .ok ("SIG-SIG" ++ " " ++ "thread") :=
  ⟨by rfl,
    pretty_thread_idempotent_on_labels
      "https://mail.python.org/archives/list/sig-sig@python.org/thread/abcd"
      "SIG-SIG" "thread" (by rfl)⟩

/-- C1 counterexample: the claim says `_pretty_thread` terminates normally on
every string input, never raising.  But on the input
`"https://mail.python.org/archives"` the `archives` marker is found at index 3
of the four split segments, so `parts[parts.index("archives") + 2]` raises an
`IndexError`, which `_pretty_thread` does not catch (it catches only
`ValueError`) and therefore propagates. -/
theorem pretty_thread_raises_indexerror_cex :
    _pretty_thread "https://mail.python.org/archives"
      = .error (.indexError "list index out of range") := by rfl

/-- C1 (amended): a classification failure signalled by `ValueError` is the
recoverable condition — it is caught inside `_pretty_thread`, which then
returns exactly the *original text unchanged*; on a successful
classification the produced label is returned; an `IndexError` (from a
marker segment with too few following segments) is not caught and
propagates unchanged; and a `ValueError` never propagates. -/
theorem pretty_thread_recovers_valueerror (text : String) :
    (∀ m, _process_list_url text = .error (.valueError m) → _pretty_thread text = .ok text) ∧
    (∀ n k, _process_list_url text = .ok (n, k) → _pretty_thread text = .ok (n ++ " " ++ k)) ∧
    (∀ m, _process_list_url text = .error (.indexError m) →
      _pretty_thread text = .error (.indexError m)) ∧
    (∀ m, _pretty_thread text ≠ .error (.valueError m)) := by
  refine ⟨?_, ?_, ?_, ?_⟩
  · intro m h
    unfold _pretty_thread
    rw [h]
  · intro n k h
    unfold _pretty_thread
    rw [h]
  · intro m h
    unfold _pretty_thread
    rw [h]
  · intro m
    unfold _pretty_thread
    cases h : _process_list_url text with
    | ok p =>
      cases p with
      | mk n k => simp
    | error e => cases e <;> simp

/-- C1 witness: a plain-text input fails classification with the
`ValueError`, and `_pretty_thread` returns exactly that input unchanged. -/
theorem pretty_thread_recovers_valueerror_witness :
    _process_list_url "no url here"
        = .error (.valueError "Not a link to a mailing list, message or thread") ∧
      _pretty_thread "no url here" = .ok "no url here" :=
  ⟨by rfl,
    (pretty_thread_recovers_valueerror "no url here").1
      "Not a link to a mailing list, message or thread" (by rfl)⟩

/-!
## The document model and the `PEPHeaders.apply` transform

The docutils tree is embedded as follows.  A `HeaderField` is the pair of its
`field_name` text and its `field_body` children; paragraph children are
either inline `Text` nodes or `reference` nodes (a reference's visible text
is its single `Text` child `node[0]`, and `refuri` its target attribute).
`apply` mutates the tree in place in Python; here it is a function from the
document state to `Except`, where an error value also carries the document
state at the moment the exception is raised.
-/

/-- An inline node inside a paragraph: a `Text` node or a `reference`
element whose visible text (its `Text` child `node[0]`) is `txt` and whose
target is `refuri`. -/
inductive Inline where
  | text (s : String)
  | reference (txt : String) (refuri : String)
deriving Repr, DecidableEq

/-- An element of a `field_body`: a paragraph with inline children, or any
other (non-paragraph) body element, abstracted by its text. -/
inductive BodyElem where
  | paragraph (children : List Inline)
  | other (txt : String)
deriving Repr, DecidableEq

/-- A docutils `field`: `field[0]` is the `field_name` (kept as its text)
and `field[1]` the `field_body` (a list of body elements). -/
structure HeaderField where
  name : String
  body : List BodyElem
deriving Repr, DecidableEq

/-- A top-level document element: the RFC-2822 `field_list` header (with its
`classes` attribute), a `pending` node (registered transform), or any other
element abstracted by its text. -/
inductive DocElem where
  | header (classes : List String) (fields : List HeaderField)
  | pending (transformName : String)
  | other (txt : String)
deriving Repr, DecidableEq

/-- The document state: its `source` path setting, its child elements, and
the list of transforms registered so far through `note_pending`. -/
structure Document where
  source : String
  elems : List DocElem
  pendingNotes : List String
deriving Repr, DecidableEq

/-- Errors escaping `PEPHeaders.apply`: the `PEPParsingError` raised by the
validation logic, or an uncaught Python exception from a helper. -/
inductive Err where
  | pepParsing (msg : String)
  | py (e : PyExc)
deriving Repr, DecidableEq

/-- Python `str.lower` (ASCII). -/
def pyLower (s : String) : String := String.mk (s.toList.map lowerChar)

/-- Python `str.startswith`. -/
def pyStartsWith (s pre : String) : Bool := pre.toList.isPrefixOf s.toList

/-- `astext` of an inline node. -/
def Inline.astext : Inline → String
  | .text s => s
  | .reference txt _ => txt

/-- `astext` of a body element: a paragraph joins its children with the
empty `TextElement.child_text_separator`. -/
def BodyElem.astext : BodyElem → String
  | .paragraph children => String.join (children.map Inline.astext)
  | .other txt => txt

/-- `astext` of a `field_body`: children joined with the default
`Element.child_text_separator`, `"\n\n"`. -/
def bodyAstext (body : List BodyElem) : String :=
  String.intercalate "\n\n" (body.map BodyElem.astext)

/-- Numeric value of a digit string. -/
def digitsVal (ds : List Char) : Nat :=
  ds.foldl (fun a c => a * 10 + (c.toNat - 48)) 0

/-- Python `int(s)` on a string: strip whitespace, then an optional sign
followed by at least one ASCII digit; anything else raises `ValueError`
(modelled as `none`).  (Python's underscore digit grouping and non-ASCII
digits are outside the ASCII scope of this model.) -/
def pyIntCs (l : List Char) : Option Int :=
  match stripWs l with
  | '+' :: ds => if ds ≠ [] ∧ ds.all (fun c => c.isDigit) then some (digitsVal ds : Nat) else none
  | '-' :: ds => if ds ≠ [] ∧ ds.all (fun c => c.isDigit) then some (-(digitsVal ds : Nat)) else none
  | ds => if ds ≠ [] ∧ ds.all (fun c => c.isDigit) then some (digitsVal ds : Nat) else none

/-- Python `int` on a `String`. -/
def pyInt (s : String) : Option Int := pyIntCs s.toList

/-- Does the list start with a Python-whitespace character? -/
def headIsWs : List Char → Bool
  | d :: _ => isPyWs d
  | [] => false

/-- One pass of `re.split(r",?\s+", ...)`.  The `inSep` flag records that the
scanner is inside the `\s+` run of the current separator match.  A new match
starts at a whitespace character, or at a comma directly followed by
whitespace; each match consumes the maximal whitespace run. -/
def reSplitAux (inSep : Bool) : List Char → List (List Char)
  | [] => [[]]
  | c :: cs =>
    if isPyWs c then
      if inSep then reSplitAux true cs
      else [] :: reSplitAux true cs
    else if c = ',' ∧ headIsWs cs then
      [] :: reSplitAux true cs
    else
      match reSplitAux false cs with
      | [] => [[c]]
      | t :: ts => (c :: t) :: ts

/-- `re.split(r",?\s+", s)` over strings. -/
def reSplit (s : String) : List String :=
  (reSplitAux false s.toList).map String.mk

/-- `Path(source).match("pep-*")`: the final path component (the file name)
must match the `fnmatch` pattern `pep-*`, i.e. start with `pep-`. -/
def pathMatchesPep (source : String) : Bool :=
  match ((splitSlash source.toList).filter (fun p => ¬ p.isEmpty)).getLast? with
  | some nameCs => "pep-".toList.isPrefixOf nameCs
  | none => false

/-- Abstraction of docutils `Element.pformat(level=1)` used only inside
error-message strings: a dump of the offending field (name and body texts);
the exact docutils indentation layout is abstracted. -/
def HeaderField.pformat (f : HeaderField) : String :=
  "    " ++ f.name ++ ":\n        "
    ++ String.intercalate "\n\n" (f.body.map BodyElem.astext) ++ "\n"

def maskNames : List String := ["author", "bdfl-delegate", "pep-delegate", "sponsor"]

def threadNames : List String := ["discussions-to", "resolution"]

def linkNames : List String := ["replaces", "superseded-by", "requires"]

def removeNames : List String := ["last-modified", "content-type", "version"]

/-- `node.replace_self(_mask_email(node))` for the reference nodes of an
author-like field.  `_mask_email` lives in `pep_zero.py`, outside this
module; it is passed in as the function `mask` from a reference's visible
text and refuri to its replacement node. -/
def maskChild (mask : String → String → Inline) : Inline → Inline
  | .reference txt refuri => mask txt refuri
  | n => n

/-- The per-node rewrite of a `Discussions-To`/`Resolution` paragraph:
references whose `refuri` starts with the mailing-list host prefix get their
visible text replaced by `_pretty_thread` of that text; an exception from
`_pretty_thread` (the uncaught `IndexError`) propagates. -/
def rewriteThreadChild : Inline → Except PyExc Inline
  | .reference txt refuri =>
    if pyStartsWith refuri "https://mail.python.org" then
      match _pretty_thread txt with
      | .ok txt2 => .ok (.reference txt2 refuri)
      | .error e => .error e
    else .ok (.reference txt refuri)
  | n => .ok n

/-- In-place update of a node list, one node at a time, as Python's
`for node in para:` loop does: on an exception, the prefix already rewritten
stays rewritten and the rest is untouched; the error carries that state. -/
def mapInPlace (f : Inline → Except PyExc Inline) :
    List Inline → Except (PyExc × List Inline) (List Inline)
  | [] => .ok []
  | x :: xs =>
    match f x with
    | .error e => .error (e, x :: xs)
    | .ok y =>
      match mapInPlace f xs with
      | .error (e, rest) => .error (e, y :: rest)
      | .ok ys => .ok (y :: ys)

/-- The `new_body` construction of the `Replaces`/`Superseded-By`/`Requires`
branch: one reference (text = the token, target = the formatted URL) plus a
`", "` text node per token; a non-integer token raises `ValueError` before
any mutation of the paragraph. -/
def buildPepLinks (pepUrl : Int → String) : List String → Except PyExc (List Inline)
  | [] => .ok []
  | t :: ts =>
    match pyInt t with
    | none => .error (.valueError ("invalid literal for int() with base 10: '" ++ t ++ "'"))
    | some nval =>
      match buildPepLinks pepUrl ts with
      | .error e => .error e
      | .ok rest => .ok (.reference t (pepUrl nval) :: .text ", " :: rest)

/-- The body of the per-field loop of `PEPHeaders.apply`: validate the body
shape, then rewrite according to the (lower-cased) field name.  Returns the
rewritten field and whether it was appended to `fields_to_remove`; an error
carries the field state at the raise. -/
def processField (mask : String → String → Inline) (pepUrl : Int → String)
    (f : HeaderField) : Except (Err × HeaderField) (HeaderField × Bool) :=
  let name := pyLower f.name
  match f.body with
  | [] => .ok (f, false)
  | _ :: _ :: _ =>
    .error (.pepParsing ("PEP header field body contains multiple elements:\n" ++ f.pformat), f)
  | [b] =>
    match b with
    | .other _ =>
      .error
        (.pepParsing ("PEP header field body may only contain a single paragraph:\n" ++ f.pformat),
          f)
    | .paragraph children =>
      if name ∈ maskNames then
        .ok ({ f with body := [.paragraph (children.map (maskChild mask))] }, false)
      else if name ∈ threadNames then
        match mapInPlace rewriteThreadChild children with
        | .error (e, cs) => .error (.py e, { f with body := [.paragraph cs] })
        | .ok cs => .ok ({ f with body := [.paragraph cs] }, false)
      else if name ∈ linkNames then
        match buildPepLinks pepUrl (reSplit (bodyAstext [b])) with
        | .error e => .error (.py e, f)
        | .ok newBody => .ok ({ f with body := [.paragraph newBody.dropLast] }, false)
      else if name ∈ removeNames then
        .ok (f, true)
      else
        .ok (f, false)

/-- The whole `for field in header:` loop.  On success, the list of
rewritten fields paired with their `fields_to_remove` marks; on an error,
the header state at the raise (earlier fields rewritten, the offending field
as `processField` left it, later fields untouched). -/
def processFields (mask : String → String → Inline) (pepUrl : Int → String) :
    List HeaderField → Except (Err × List HeaderField) (List (HeaderField × Bool))
  | [] => .ok []
  | f :: fs =>
    match processField mask pepUrl f with
    | .error (e, f2) => .error (e, f2 :: fs)
    | .ok (f2, rm) =>
      match processFields mask pepUrl fs with
      | .error (e, fs2) => .error (e, f2 :: fs2)
      | .ok rest => .ok ((f2, rm) :: rest)

/-- The name stored in the pending node registered for PEP 0 (the
`pep_zero.PEPZero` transform, an external collaborator of this module). -/
def PEPZeroName : String := "PEPZero"

/-- The continuation of `apply` after the PEP number has been parsed: the
title validation followed by the per-field loop and the removal pass,
operating on the document state `doc1` (which already contains the pending
node when the PEP number was 0).  `classes` and `fields` are the header's
attributes and fields; the header is `doc1`'s first element. -/
def applyAfterNum (mask : String → String → Inline) (pepUrl : Int → String)
    (doc1 : Document) (classes : List String) (fields : List HeaderField) :
    Except (Err × Document) Document :=
  if fields.length < 2 ∨ (fields.get? 1).map (fun f => pyLower f.name) ≠ some "title" then
    .error (.pepParsing "No title!", doc1)
  else
    match processFields mask pepUrl fields with
    | .error (e, fields2) =>
      .error (e, { doc1 with elems := .header classes fields2 :: doc1.elems.tail })
    | .ok processed =>
      .ok { doc1 with
              elems := .header classes
                (processed.filterMap (fun fr => if fr.2 then none else some fr.1))
                :: doc1.elems.tail }

/-- `PEPHeaders.apply`.  `mask` is the external `_mask_email` collaborator
and `pepUrl` the `settings.pep_url.format` template instantiation.  The
result is the final document state, or the raised error together with the
document state at the raise. -/
def PEPHeaders.apply (mask : String → String → Inline) (pepUrl : Int → String)
    (doc : Document) : Except (Err × Document) Document :=
  if ¬ pathMatchesPep doc.source then .ok doc
  else
    match doc.elems with
    | [] => .error (.pepParsing "Document tree is empty.", doc)
    | first :: rest =>
      match first with
      | .pending _ =>
        .error (.pepParsing "Document does not begin with an RFC-2822 header; it is not a PEP.",
          doc)
      | .other _ =>
        .error (.pepParsing "Document does not begin with an RFC-2822 header; it is not a PEP.",
          doc)
      | .header classes fields =>
        if ¬ (classes.contains "rfc2822") then
          .error (.pepParsing "Document does not begin with an RFC-2822 header; it is not a PEP.",
            doc)
        else
          match fields with
          | [] => .error (.py (.indexError "list index out of range"), doc)
          | pepField :: _ =>
            if pyLower pepField.name ≠ "pep" then
              .error (.pepParsing "Document does not contain an RFC-2822 'PEP' header!", doc)
            else
              match pyInt (bodyAstext pepField.body) with
              | none =>
                .error (.pepParsing ("'PEP' header must contain an integer. '"
                  ++ bodyAstext pepField.body ++ "' is invalid!"), doc)
              | some pepNum =>
                applyAfterNum mask pepUrl
                  (if pepNum = 0 then
                    { doc with
                        elems := first :: .pending PEPZeroName :: rest,
                        pendingNotes := doc.pendingNotes ++ [PEPZeroName] }
                   else doc)
                  classes fields

/-- The document state an `apply` run ends in, whether or not it raised. -/
def resultState : Except (Err × Document) Document → Document
  | .ok d => d
  | .error (_, d) => d

/-- The fields of the document's header element (first element), when it has
one. -/
def headerFields (doc : Document) : List HeaderField :=
  match doc.elems with
  | .header _ fields :: _ => fields
  | _ => []

/-- The PEP number the header would yield: the first element must be an
rfc2822 `field_list`, its first field named `pep` (case-insensitively), and
the field's body text must parse as an integer. -/
def docPepNum (doc : Document) : Option Int :=
  match doc.elems with
  | .header classes (pepField :: _) :: _ =>
    if classes.contains "rfc2822" ∧ pyLower pepField.name = "pep" then
      pyInt (bodyAstext pepField.body)
    else none
  | _ => none

/-!
## Concrete collaborator instances used by witnesses
-/

/-- A concrete instance of the external `_mask_email` collaborator (its exact
obfuscation scheme is an external contract): here the identity on reference
nodes. -/
def maskId : String → String → Inline := fun txt refuri => Inline.reference txt refuri

/-- A concrete instance of `settings.pep_url.format`, modelling the template
`https://peps.python.org/pep-` followed by the PEP number zero-padded to four
digits. -/
def pepUrlDefault (n : Int) : String :=
  let s := toString n
  let pad := if s.length < 4 then String.mk (List.replicate (4 - s.length) '0') else ""
  "https://peps.python.org/pep-" ++ pad ++ s ++ "/"

/-- C7: for a document whose source filename does not match `pep-*`, `apply`
returns immediately: no error and a completely unchanged document tree. -/
theorem apply_noop_on_non_pep (mask : String → String → Inline) (pepUrl : Int → String)
    (doc : Document) (h : pathMatchesPep doc.source = false) :
    PEPHeaders.apply mask pepUrl doc = .ok doc := by
  unfold PEPHeaders.apply
  simp [h]

/-- C7 witness: `apply` on a document named `contents.rst` is the identity. -/
theorem apply_noop_on_non_pep_witness :
    pathMatchesPep "contents.rst" = false ∧
      PEPHeaders.apply maskId pepUrlDefault ⟨"contents.rst", [], []⟩
        = .ok ⟨"contents.rst", [], []⟩ :=
  ⟨by rfl, apply_noop_on_non_pep maskId pepUrlDefault ⟨"contents.rst", [], []⟩ (by rfl)⟩

/-- A document that is a PEP 0 header with no title field: used to exhibit
the non-atomicity of `apply`. -/
def docPepZeroNoTitle : Document :=
  ⟨"pep-0000.rst", [.header ["rfc2822"] [⟨"PEP", [.paragraph [.text "0"]]⟩]], []⟩

/-- C2 counterexample: the claim says that when `apply` raises, the document
tree is left in its pre-transform state.  On a PEP 0 document with no title
field, the pending `PEPZero` node is inserted and noted *before* the title
validation raises `No title!`, so the state at the raise differs from the
pre-transform state. -/
theorem apply_not_atomic_cex :
    PEPHeaders.apply maskId pepUrlDefault docPepZeroNoTitle
        = .error (.pepParsing "No title!",
            ⟨"pep-0000.rst",
              [.header ["rfc2822"] [⟨"PEP", [.paragraph [.text "0"]]⟩], .pending "PEPZero"],
              ["PEPZero"]⟩) ∧
      (⟨"pep-0000.rst",
          [.header ["rfc2822"] [⟨"PEP", [.paragraph [.text "0"]]⟩], .pending "PEPZero"],
          ["PEPZero"]⟩ : Document) ≠ docPepZeroNoTitle :=
  ⟨by rfl, by decide⟩

/-- Is the document rejected by one of the validation steps that precede the
PEP 0 special case (empty tree, first element not an rfc2822 field list,
empty field list, first field not named `pep`, or non-integer value)? -/
def earlyMalformed (doc : Document) : Bool :=
  match doc.elems with
  | [] => true
  | .header classes fields :: _ =>
    if ¬ classes.contains "rfc2822" then true
    else
      match fields with
      | [] => true
      | f :: _ =>
        if pyLower f.name ≠ "pep" then true
        else (pyInt (bodyAstext f.body)).isNone
  | .pending _ :: _ => true
  | .other _ :: _ => true

/-- C2 (amended): `apply` either completes with the whole header validated
and rewritten or raises; when it raises during the validation steps that
precede the PEP 0 pending-node insertion, the document state at the raise is
exactly the pre-transform state.  (Errors raised later — the missing-title
check and the per-field loop — can leave the pending node inserted and
earlier fields already rewritten, as the counterexample shows.) -/
theorem apply_atomic_before_pep_zero (mask : String → String → Inline)
    (pepUrl : Int → String) (doc : Document)
    (hmatch : pathMatchesPep doc.source = true)
    (hearly : earlyMalformed doc = true) :
    ∃ e, PEPHeaders.apply mask pepUrl doc = .error (e, doc) := by
  unfold PEPHeaders.apply
  unfold earlyMalformed at hearly
  simp only [hmatch, not_true, if_false]
  cases helems : doc.elems with
  | nil => exact ⟨.pepParsing "Document tree is empty.", by simp⟩
  | cons first rest =>
    rw [helems] at hearly
    cases first with
    | pending t =>
      exact ⟨.pepParsing "Document does not begin with an RFC-2822 header; it is not a PEP.",
        by simp⟩
    | other t =>
      exact ⟨.pepParsing "Document does not begin with an RFC-2822 header; it is not a PEP.",
        by simp⟩
    | header classes fields =>
      dsimp only at hearly
      cases hcl : classes.contains "rfc2822" with
      | false =>
        refine ⟨.pepParsing "Document does not begin with an RFC-2822 header; it is not a PEP.",
          ?_⟩
        dsimp only
        rw [if_pos (show ¬ classes.contains "rfc2822" = true by rw [hcl]; simp)]
      | true =>
        rw [hcl] at hearly
        simp only [not_true, if_false, eq_self_iff_true] at hearly

        cases fields with
        | nil =>
          refine ⟨.py (.indexError "list index out of range"), ?_⟩
          dsimp only
          rw [if_neg (show ¬¬ classes.contains "rfc2822" = true by rw [hcl]; simp)]
        | cons pepField restF =>
          by_cases hname : pyLower pepField.name = "pep"
          · simp only [hname, ne_eq, not_true, not_false_iff, if_neg, if_false] at hearly
            cases hint : pyInt (bodyAstext pepField.body) with
            | some v =>
              rw [hint] at hearly
              simp at hearly
            | none =>
              refine ⟨.pepParsing ("'PEP' header must contain an integer. '"
                ++ bodyAstext pepField.body ++ "' is invalid!"), ?_⟩
              dsimp only
              rw [if_neg (show ¬¬ classes.contains "rfc2822" = true by rw [hcl]; simp),
                if_neg (by simp [hname]), hint]
          · refine ⟨.pepParsing "Document does not contain an RFC-2822 'PEP' header!", ?_⟩
            dsimp only
            rw [if_neg (show ¬¬ classes.contains "rfc2822" = true by rw [hcl]; simp),
              if_pos (by simp [hname])]

/-- C2 witness: the empty document named like a PEP fails early with the
tree unchanged. -/
theorem apply_atomic_before_pep_zero_witness :
    pathMatchesPep "pep-0001.rst" = true ∧
      earlyMalformed ⟨"pep-0001.rst", [], []⟩ = true ∧
      ∃ e, PEPHeaders.apply maskId pepUrlDefault ⟨"pep-0001.rst", [], []⟩
        = .error (e, ⟨"pep-0001.rst", [], []⟩) :=
  ⟨by rfl, by rfl,
    apply_atomic_before_pep_zero maskId pepUrlDefault ⟨"pep-0001.rst", [], []⟩ (by rfl) (by rfl)⟩

/-- Whatever `applyAfterNum` does — raise at the title check, raise inside
the field loop, or succeed — it only ever replaces the header element (the
first document element): the pending-note list, the element at index 1 and
the number of elements are those of its input state. -/
theorem applyAfterNum_state (mask : String → String → Inline) (pepUrl : Int → String)
    (doc1 : Document) (classes : List String) (fields : List HeaderField)
    (e0 : DocElem) (t0 : List DocElem) (hne : doc1.elems = e0 :: t0) :
    (resultState (applyAfterNum mask pepUrl doc1 classes fields)).pendingNotes
        = doc1.pendingNotes ∧
      (resultState (applyAfterNum mask pepUrl doc1 classes fields)).elems.get? 1
        = doc1.elems.get? 1 ∧
      (resultState (applyAfterNum mask pepUrl doc1 classes fields)).elems.length
        = doc1.elems.length := by
  unfold applyAfterNum
  split
  · exact ⟨rfl, rfl, rfl⟩
  · cases hpf : processFields mask pepUrl fields with
    | error p =>
      cases p with
      | mk e fields2 =>
        refine ⟨rfl, ?_, ?_⟩ <;> simp [resultState, hne]
    | ok processed =>
      refine ⟨rfl, ?_, ?_⟩ <;> simp [resultState, hne]

/-- C9: when the header's first field parses to PEP number 0, one run of
`apply` registers the deferred `PEPZero` transform exactly once — one
pending node inserted at document position 1 and exactly one new
`note_pending` entry — whatever happens afterwards; when the PEP number is
nonzero, no pending node is inserted and nothing is noted. -/
theorem apply_pep_zero_registers_once (mask : String → String → Inline)
    (pepUrl : Int → String) (doc : Document) (v : Int)
    (hmatch : pathMatchesPep doc.source = true)
    (hnum : docPepNum doc = some v) :
    (v = 0 →
      (resultState (PEPHeaders.apply mask pepUrl doc)).pendingNotes
          = doc.pendingNotes ++ [PEPZeroName] ∧
        (resultState (PEPHeaders.apply mask pepUrl doc)).elems.get? 1
          = some (.pending PEPZeroName)) ∧
    (v ≠ 0 →
      (resultState (PEPHeaders.apply mask pepUrl doc)).pendingNotes = doc.pendingNotes ∧
        (resultState (PEPHeaders.apply mask pepUrl doc)).elems.length = doc.elems.length) := by
  unfold docPepNum at hnum
  cases helems : doc.elems with
  | nil => rw [helems] at hnum; exact absurd hnum (by simp)
  | cons first rest =>
    rw [helems] at hnum
    cases first with
    | pending t => exact absurd hnum (by simp)
    | other t => exact absurd hnum (by simp)
    | header classes fields =>
      cases fields with
      | nil => exact absurd hnum (by simp)
      | cons pepField restF =>
        dsimp only at hnum
        by_cases hcond : classes.contains "rfc2822" = true ∧ pyLower pepField.name = "pep"
        · rw [if_pos hcond] at hnum
          obtain ⟨hcl, hname⟩ := hcond
          have happ : PEPHeaders.apply mask pepUrl doc
              = applyAfterNum mask pepUrl
                  (if v = 0 then
                    { doc with
                        elems := .header classes (pepField :: restF)
                          :: .pending PEPZeroName :: rest,
                        pendingNotes := doc.pendingNotes ++ [PEPZeroName] }
                   else doc)
                  classes (pepField :: restF) := by
            unfold PEPHeaders.apply
            rw [if_neg (show ¬ ¬ pathMatchesPep doc.source = true by rw [hmatch]; simp)]
            rw [helems]
            dsimp only
            rw [if_neg (show ¬ ¬ classes.contains "rfc2822" = true by rw [hcl]; simp)]
            rw [if_neg (show ¬ pyLower pepField.name ≠ "pep" by simp [hname]), hnum]
          constructor
          · intro hv
            subst hv
            rw [happ, if_pos rfl]
            have hst := applyAfterNum_state mask pepUrl
              { doc with
                  elems := .header classes (pepField :: restF) :: .pending PEPZeroName :: rest,
                  pendingNotes := doc.pendingNotes ++ [PEPZeroName] }
              classes (pepField :: restF) _ _ rfl
            refine ⟨?_, ?_⟩
            · rw [hst.1]
            · rw [hst.2.1]
              rfl
          · intro hv
            rw [happ, if_neg hv]
            have hst := applyAfterNum_state mask pepUrl doc classes (pepField :: restF)
              _ _ helems
            exact ⟨hst.1, by rw [hst.2.2, helems]⟩
        · rw [if_neg hcond] at hnum
          exact absurd hnum (by simp)

/-- C9 witness: the PEP 0 document registers the pending transform once,
even though this run later aborts at the title check. -/
theorem apply_pep_zero_registers_once_witness :
    pathMatchesPep docPepZeroNoTitle.source = true ∧
      docPepNum docPepZeroNoTitle = some 0 ∧
      (resultState (PEPHeaders.apply maskId pepUrlDefault docPepZeroNoTitle)).pendingNotes
        = docPepZeroNoTitle.pendingNotes ++ [PEPZeroName] :=
  ⟨by rfl, by rfl,
    ((apply_pep_zero_registers_once maskId pepUrlDefault docPepZeroNoTitle 0
        (by rfl) (by rfl)).1 rfl).1⟩

/-- A successful loop relates fields and their processing results pointwise
and in order. -/
theorem processFields_ok_forall₂ {mask : String → String → Inline} {pepUrl : Int → String}
    {fields : List HeaderField} {processed : List (HeaderField × Bool)}
    (h : processFields mask pepUrl fields = .ok processed) :
    List.Forall₂ (fun f fr => processField mask pepUrl f = .ok fr) fields processed := by
  induction fields generalizing processed with
  | nil =>
    unfold processFields at h
    injection h with h
    subst h
    exact List.Forall₂.nil
  | cons f fs ih =>
    unfold processFields at h
    cases hf : processField mask pepUrl f with
    | error p => rw [hf] at h; cases p; simp at h
    | ok fr =>
      rw [hf] at h
      cases fr with
      | mk f2 rm =>
        cases hfs : processFields mask pepUrl fs with
        | error p => rw [hfs] at h; cases p; simp at h
        | ok rest =>
          rw [hfs] at h
          injection h with h
          subst h
          exact List.Forall₂.cons hf (ih hfs)

/-- Inversion of a successful `apply` run: either the source name did not
match and the document is untouched, or the document's header fields were
processed by the loop and the result's header holds the filtered rewritten
fields. -/
theorem apply_ok_inversion {mask : String → String → Inline} {pepUrl : Int → String}
    {doc d2 : Document} (hok : PEPHeaders.apply mask pepUrl doc = .ok d2) :
    (pathMatchesPep doc.source = false ∧ d2 = doc) ∨
      ∃ processed, processFields mask pepUrl (headerFields doc) = .ok processed ∧
        headerFields d2
          = processed.filterMap (fun fr => if fr.2 then none else some fr.1) := by
  unfold PEPHeaders.apply at hok
  by_cases hmatch : pathMatchesPep doc.source
  · rw [if_neg (by simp [hmatch])] at hok
    cases helems : doc.elems with
    | nil => rw [helems] at hok; exact absurd hok (by simp)
    | cons first rest =>
      rw [helems] at hok
      cases first with
      | pending t => exact absurd hok (by simp)
      | other t => exact absurd hok (by simp)
      | header classes fields =>
        dsimp only at hok
        by_cases hcl : classes.contains "rfc2822"
        · rw [if_neg (show ¬ ¬ classes.contains "rfc2822" = true by rw [hcl]; simp)] at hok
          cases fields with
          | nil => exact absurd hok (by simp)
          | cons pepField restF =>
            dsimp only at hok
            by_cases hname : pyLower pepField.name = "pep"
            · rw [if_neg (by simp [hname])] at hok
              cases hint : pyInt (bodyAstext pepField.body) with
              | none => rw [hint] at hok; exact absurd hok (by simp)
              | some pepNum =>
                rw [hint] at hok
                dsimp only at hok
                unfold applyAfterNum at hok
                by_cases hT : ((pepField :: restF).length < 2 ∨
                    ((pepField :: restF).get? 1).map (fun f => pyLower f.name) ≠ some "title")
                · rw [if_pos hT] at hok
                  exact absurd hok (by simp)
                · rw [if_neg hT] at hok
                  cases hpf : processFields mask pepUrl (pepField :: restF) with
                  | error p =>
                    rw [hpf] at hok
                    cases p
                    exact absurd hok (by simp)
                  | ok processed =>
                    rw [hpf] at hok
                    injection hok with hok
                    right
                    refine ⟨processed, ?_, ?_⟩
                    · rw [show headerFields doc = pepField :: restF by
                        unfold headerFields; rw [helems]]
                      exact hpf
                    · rw [← hok]
                      rfl
            · rw [if_pos (by simp [hname])] at hok
              exact absurd hok (by simp)
        · rw [if_pos hcl] at hok
          exact absurd hok (by simp)
  · rw [if_pos hmatch] at hok
    injection hok with hok
    exact Or.inl ⟨Bool.eq_false_iff.mpr hmatch, hok.symm⟩

theorem mask_not_remove {s : String} (h : s ∈ maskNames) : s ∉ removeNames := by
  intro hr
  simp only [maskNames, List.mem_cons, List.mem_singleton, List.not_mem_nil, or_false] at h
  rcases h with rfl | rfl | rfl | rfl <;> simp [removeNames] at hr

theorem thread_not_remove {s : String} (h : s ∈ threadNames) : s ∉ removeNames := by
  intro hr
  simp only [threadNames, List.mem_cons, List.mem_singleton, List.not_mem_nil, or_false] at h
  rcases h with rfl | rfl <;> simp [removeNames] at hr

theorem link_not_remove {s : String} (h : s ∈ linkNames) : s ∉ removeNames := by
  intro hr
  simp only [linkNames, List.mem_cons, List.mem_singleton, List.not_mem_nil, or_false] at h
  rcases h with rfl | rfl | rfl <;> simp [removeNames] at hr

/-- What a successful `processField` guarantees: the name is preserved; the
field is marked for removal exactly when its (lower-cased) name is a
remove-name and its body is non-empty; an empty-body field is returned
untouched and unmarked; a field whose name is in none of the four dispatch
sets is returned untouched. -/
theorem processField_ok_facts {mask : String → String → Inline} {pepUrl : Int → String}
    {f f2 : HeaderField} {rm : Bool}
    (h : processField mask pepUrl f = .ok (f2, rm)) :
    f2.name = f.name ∧
      (rm = true ↔ (pyLower f.name ∈ removeNames ∧ f.body ≠ [])) ∧
      (f.body = [] → f2 = f ∧ rm = false) ∧
      (pyLower f.name ∉ maskNames → pyLower f.name ∉ threadNames →
        pyLower f.name ∉ linkNames → pyLower f.name ∉ removeNames → f2 = f) := by
  unfold processField at h
  cases hbody : f.body with
  | nil =>
    rw [hbody] at h
    injection h with h
    injection h with h1 h2
    subst h1
    subst h2
    refine ⟨rfl, by simp [hbody], fun _ => ⟨rfl, rfl⟩, fun _ _ _ _ => rfl⟩
  | cons b bs =>
    rw [hbody] at h
    cases bs with
    | cons b2 bs2 => exact absurd h (by simp)
    | nil =>
      cases b with
      | other t => exact absurd h (by simp)
      | paragraph children =>
        dsimp only at h
        by_cases hmk : pyLower f.name ∈ maskNames
        · rw [if_pos hmk] at h
          injection h with h
          injection h with h1 h2
          subst h1
          subst h2
          refine ⟨rfl, by simp [mask_not_remove hmk], by simp [hbody], fun hm _ _ _ => absurd hmk hm⟩
        · rw [if_neg hmk] at h
          by_cases hth : pyLower f.name ∈ threadNames
          · rw [if_pos hth] at h
            cases hmi : mapInPlace rewriteThreadChild children with
            | error p => rw [hmi] at h; cases p; exact absurd h (by simp)
            | ok cs =>
              rw [hmi] at h
              injection h with h
              injection h with h1 h2
              subst h1
              subst h2
              refine ⟨rfl, by simp [thread_not_remove hth], by simp [hbody],
                fun _ hm _ _ => absurd hth hm⟩
          · rw [if_neg hth] at h
            by_cases hlk : pyLower f.name ∈ linkNames
            · rw [if_pos hlk] at h
              cases hbl : buildPepLinks pepUrl (reSplit (bodyAstext [BodyElem.paragraph children]))
                with
              | error e => rw [hbl] at h; exact absurd h (by simp)
              | ok newBody =>
                rw [hbl] at h
                injection h with h
                injection h with h1 h2
                subst h1
                subst h2
                refine ⟨rfl, by simp [link_not_remove hlk], by simp [hbody],
                  fun _ _ hm _ => absurd hlk hm⟩
            · rw [if_neg hlk] at h
              by_cases hrv : pyLower f.name ∈ removeNames
              · rw [if_pos hrv] at h
                injection h with h
                injection h with h1 h2
                subst h1
                subst h2
                refine ⟨rfl, by simp [hrv, hbody], by simp [hbody], fun _ _ _ hm => absurd hrv hm⟩
              · rw [if_neg hrv] at h
                injection h with h
                injection h with h1 h2
                subst h1
                subst h2
                refine ⟨rfl, by simp [hrv], by simp [hbody], fun _ _ _ _ => rfl⟩

theorem forall₂_mem_left {α β : Type _} {R : α → β → Prop} :
    ∀ {l₁ : List α} {l₂ : List β}, List.Forall₂ R l₁ l₂ → ∀ {a}, a ∈ l₁ → ∃ b ∈ l₂, R a b := by
  intro l₁ l₂ h
  induction h with
  | nil => intro a ha; cases ha
  | cons hr hrest ih =>
    intro a ha
    rcases List.mem_cons.mp ha with rfl | ha
    · exact ⟨_, List.mem_cons_self _ _, hr⟩
    · obtain ⟨b, hb, hrb⟩ := ih ha
      exact ⟨b, List.mem_cons_of_mem _ hb, hrb⟩

theorem forall₂_mem_right {α β : Type _} {R : α → β → Prop} :
    ∀ {l₁ : List α} {l₂ : List β}, List.Forall₂ R l₁ l₂ → ∀ {b}, b ∈ l₂ → ∃ a ∈ l₁, R a b := by
  intro l₁ l₂ h
  induction h with
  | nil => intro b hb; cases hb
  | cons hr hrest ih =>
    intro b hb
    rcases List.mem_cons.mp hb with rfl | hb
    · exact ⟨_, List.mem_cons_self _ _, hr⟩
    · obtain ⟨a, ha, hra⟩ := ih hb
      exact ⟨a, List.mem_cons_of_mem _ ha, hra⟩

/-- C10 (implicit): a header field whose body is empty is left entirely
untouched by the field loop regardless of its name — the shape check and all
rewrites are skipped and the field is not marked for removal — and after a
successful `apply` run the field is still present in the header. -/
theorem empty_body_field_untouched (mask : String → String → Inline) (pepUrl : Int → String)
    (doc d2 : Document) (f : HeaderField)
    (hok : PEPHeaders.apply mask pepUrl doc = .ok d2)
    (hf : f ∈ headerFields doc) (hbody : f.body = []) :
    processField mask pepUrl f = .ok (f, false) ∧ f ∈ headerFields d2 := by
  have hpf : processField mask pepUrl f = .ok (f, false) := by
    unfold processField
    rw [hbody]
  refine ⟨hpf, ?_⟩
  rcases apply_ok_inversion hok with ⟨_, rfl⟩ | ⟨processed, hproc, hhf⟩
  · exact hf
  · obtain ⟨fr, hfr, hR⟩ := forall₂_mem_left (processFields_ok_forall₂ hproc) hf
    have hfr2 : fr = (f, false) := by
      have h2 := hR.symm.trans hpf
      injection h2
    subst hfr2
    rw [hhf]
    exact List.mem_filterMap.mpr ⟨(f, false), hfr, by simp⟩

/-- The empty-body `Version` document: `apply` succeeds and changes
nothing. -/
def docWithEmptyVersion : Document :=
  ⟨"pep-0001.rst",
   [.header ["rfc2822"]
     [⟨"PEP", [.paragraph [.text "1"]]⟩,
      ⟨"Title", [.paragraph [.text "T"]]⟩,
      ⟨"Version", []⟩]], []⟩

/-- C10 witness: the empty-body `Version` field of a successfully processed
document is skipped, unmarked, and survives. -/
theorem empty_body_field_untouched_witness :
    PEPHeaders.apply maskId pepUrlDefault docWithEmptyVersion = .ok docWithEmptyVersion ∧
      (processField maskId pepUrlDefault ⟨"Version", []⟩ = .ok (⟨"Version", []⟩, false) ∧
        (⟨"Version", []⟩ : HeaderField) ∈ headerFields docWithEmptyVersion) :=
  ⟨by rfl,
    empty_body_field_untouched maskId pepUrlDefault docWithEmptyVersion docWithEmptyVersion
      ⟨"Version", []⟩ (by rfl) (by decide) rfl⟩

/-- C4 counterexample: the claim says every `version`-named field is absent
after `apply` completes.  A `Version` field with an *empty* body is skipped
by the loop (never marked for removal), so `apply` completes successfully
with the field still present. -/
theorem apply_version_survives_cex :
    PEPHeaders.apply maskId pepUrlDefault docWithEmptyVersion = .ok docWithEmptyVersion ∧
      "version" ∈ (headerFields docWithEmptyVersion).map (fun f => pyLower f.name) :=
  ⟨by rfl, by decide⟩

theorem filterMap_names_eq_filter {mask : String → String → Inline} {pepUrl : Int → String} :
    ∀ {fs : List HeaderField} {ps : List (HeaderField × Bool)},
      List.Forall₂ (fun f fr => processField mask pepUrl f = .ok fr) fs ps →
      (ps.filterMap (fun fr => if fr.2 then none else some fr.1)).map (fun f => f.name)
        = (fs.filter
            (fun f => ¬ (pyLower f.name ∈ removeNames ∧ f.body ≠ []))).map (fun f => f.name) := by
  intro fs ps h2
  induction h2 with
  | nil => rfl
  | @cons f fr fs2 ps2 hr hrest ih =>
    obtain ⟨hname, hiff, _, _⟩ := processField_ok_facts hr
    rw [List.filterMap_cons, List.filter_cons]
    by_cases hrm : fr.2 = true
    · have hcond : pyLower f.name ∈ removeNames ∧ f.body ≠ [] := hiff.mp hrm
      rw [if_pos hrm, if_neg (by simp [hcond.1, hcond.2])]
      exact ih
    · have hrmf : fr.2 = false := by
        cases hfr2 : fr.2
        · rfl
        · exact absurd hfr2 hrm
      have hcond : ¬ (pyLower f.name ∈ removeNames ∧ f.body ≠ []) :=
        fun hc => hrm (hiff.mpr hc)
      rw [if_neg hrm, if_pos (decide_eq_true hcond)]
      dsimp only
      simp only [List.map_cons, hname]
      rw [ih]

/-- C4 (amended): on every successful `apply` run on a PEP-named document,
the surviving header fields keep their original relative order; every field
named `last-modified`/`content-type`/`version` *with non-empty body* is
absent afterwards (one with an empty body survives, as the counterexample
shows, since the loop skips empty bodies before the name dispatch); and
every field with an unrecognized name is still present, untouched. -/
theorem apply_field_order_and_removal (mask : String → String → Inline)
    (pepUrl : Int → String) (doc d2 : Document)
    (hmatch : pathMatchesPep doc.source = true)
    (hok : PEPHeaders.apply mask pepUrl doc = .ok d2) :
    ((headerFields d2).map (fun f => f.name)
        = ((headerFields doc).filter
            (fun f => ¬ (pyLower f.name ∈ removeNames ∧ f.body ≠ []))).map (fun f => f.name)) ∧
      (∀ f2 ∈ headerFields d2, pyLower f2.name ∈ removeNames → f2.body = []) ∧
      (∀ f ∈ headerFields doc,
        pyLower f.name ∉ maskNames → pyLower f.name ∉ threadNames →
        pyLower f.name ∉ linkNames → pyLower f.name ∉ removeNames →
        f ∈ headerFields d2) := by
  rcases apply_ok_inversion hok with ⟨hfalse, _⟩ | ⟨processed, hproc, hhf⟩
  · rw [hmatch] at hfalse
    cases hfalse
  · have h2 := processFields_ok_forall₂ hproc
    refine ⟨?_, ?_, ?_⟩
    · rw [hhf]
      exact filterMap_names_eq_filter h2
    · intro f2 hf2 hrn
      rw [hhf] at hf2
      obtain ⟨fr, hfr, hsel⟩ := List.mem_filterMap.mp hf2
      have hrmf : fr.2 = false ∧ fr.1 = f2 := by
        by_cases hb : fr.2 = true
        · rw [if_pos hb] at hsel
          cases hsel
        · have : fr.2 = false := by
            cases hfr2 : fr.2
            · rfl
            · exact absurd hfr2 hb
          rw [if_neg hb] at hsel
          injection hsel with hsel
          exact ⟨this, hsel⟩
      obtain ⟨f, hfmem, hR⟩ := forall₂_mem_right h2 hfr
      obtain ⟨hname, hiff, hempty, _⟩ := processField_ok_facts (by rw [hR])
      have hfname : pyLower f.name ∈ removeNames := by
        have hnn : f2.name = f.name := by rw [← hrmf.2, hname]
        rwa [hnn] at hrn
      by_cases hbody : f.body = []
      · have := (hempty hbody).1
        rw [← hrmf.2, this, hbody]
      · exfalso
        have : fr.2 = true := hiff.mpr ⟨hfname, hbody⟩
        rw [hrmf.1] at this
        cases this
    · intro f hfm h1 h2m h3 h4
      obtain ⟨fr, hfr, hR⟩ := forall₂_mem_left h2 hfm
      obtain ⟨hname, hiff, hempty, huntouched⟩ := processField_ok_facts hR
      have hfr1 : fr.1 = f := huntouched h1 h2m h3 h4
      have hfr2 : fr.2 = false := by
        cases hb : fr.2
        · rfl
        · exact absurd (hiff.mp hb).1 h4
      rw [hhf]
      exact List.mem_filterMap.mpr ⟨fr, hfr, by rw [if_neg (by simp [hfr2]), hfr1]⟩

/-- The well-formed document used to witness field removal and order
preservation. -/
def docVersionNonempty : Document :=
  ⟨"pep-0001.rst",
   [.header ["rfc2822"]
     [⟨"PEP", [.paragraph [.text "1"]]⟩,
      ⟨"Title", [.paragraph [.text "T"]]⟩,
      ⟨"Version", [.paragraph [.text "1.0"]]⟩,
      ⟨"Custom", [.paragraph [.text "x"]]⟩]], []⟩

/-- The state `apply` leaves `docVersionNonempty` in: the `Version` field is
gone, everything else keeps its order. -/
def docVersionNonemptyRes : Document :=
  ⟨"pep-0001.rst",
   [.header ["rfc2822"]
     [⟨"PEP", [.paragraph [.text "1"]]⟩,
      ⟨"Title", [.paragraph [.text "T"]]⟩,
      ⟨"Custom", [.paragraph [.text "x"]]⟩]], []⟩

/-- C4 witness: the amended order/removal theorem applied to a concrete
document with a non-empty `Version` field. -/
theorem apply_field_order_and_removal_witness :
    (headerFields docVersionNonemptyRes).map (fun f => f.name)
      = ((headerFields docVersionNonempty).filter
          (fun f => ¬ (pyLower f.name ∈ removeNames ∧ f.body ≠ []))).map (fun f => f.name) :=
  (apply_field_order_and_removal maskId pepUrlDefault docVersionNonempty docVersionNonemptyRes
    (by rfl) (by rfl)).1

theorem link_not_mask {s : String} (h : s ∈ linkNames) : s ∉ maskNames := by
  intro hr
  simp only [linkNames, List.mem_cons, List.mem_singleton, List.not_mem_nil, or_false] at h
  rcases h with rfl | rfl | rfl <;> simp [maskNames] at hr

theorem link_not_thread {s : String} (h : s ∈ linkNames) : s ∉ threadNames := by
  intro hr
  simp only [linkNames, List.mem_cons, List.mem_singleton, List.not_mem_nil, or_false] at h
  rcases h with rfl | rfl | rfl <;> simp [threadNames] at hr

/-- When every token parses, `new_body` is one `[reference, ", "]` pair per
token, in order. -/
theorem buildPepLinks_ok (pepUrl : Int → String) :
    ∀ (ts : List String), (∀ t ∈ ts, (pyInt t).isSome) →
      buildPepLinks pepUrl ts
        = .ok ((ts.map (fun t =>
            [Inline.reference t (pepUrl ((pyInt t).getD 0)), Inline.text ", "])).flatten) := by
  intro ts h
  induction ts with
  | nil => rfl
  | cons t ts ih =>
    unfold buildPepLinks
    cases hpi : pyInt t with
    | none => exact absurd (h t (List.mem_cons_self t ts)) (by simp [hpi])
    | some v =>
      rw [ih (fun x hx => h x (List.mem_cons_of_mem _ hx))]
      simp [hpi]

/-- Dropping the final element of the flattened `[link, sep]` pairs yields
the links interspersed with the separator, with no trailing separator. -/
theorem flatten_pairs_dropLast {α β : Type _} (sep : β) (g : α → β) :
    ∀ (ts : List α), ((ts.map (fun t => [g t, sep])).flatten).dropLast
      = List.intersperse sep (ts.map g) := by
  intro ts
  induction ts with
  | nil => rfl
  | cons t ts ih =>
    cases ts with
    | nil => rfl
    | cons t2 ts2 =>
      have hne : (((t2 :: ts2).map (fun t => [g t, sep])).flatten) ≠ [] := by
        simp
      rw [List.map_cons, List.flatten_cons, List.dropLast_append_of_ne_nil _ hne, ih]
      simp [List.intersperse]

/-- C3: a `replaces`/`superseded-by`/`requires` field with a (shape-valid)
non-empty body has its full text re-split by `,?\s+`, each token parsed as an
integer PEP number, and its paragraph replaced by one link per token (text =
the token, target = the URL-template applied to the parsed number), joined
with `", "` text separators and no trailing separator. -/
theorem processField_links (mask : String → String → Inline) (pepUrl : Int → String)
    (f : HeaderField) (children : List Inline)
    (hname : pyLower f.name ∈ linkNames)
    (hbody : f.body = [.paragraph children])
    (htokens : ∀ t ∈ reSplit (bodyAstext f.body), (pyInt t).isSome) :
    processField mask pepUrl f
      = .ok ({ f with body := [.paragraph (List.intersperse (.text ", ")
          ((reSplit (bodyAstext f.body)).map
            (fun t => Inline.reference t (pepUrl ((pyInt t).getD 0)))))] }, false) := by
  unfold processField
  rw [hbody]
  dsimp only
  rw [if_neg (link_not_mask hname), if_neg (link_not_thread hname), if_pos hname]
  rw [← hbody, buildPepLinks_ok pepUrl _ htokens]
  dsimp only
  rw [flatten_pairs_dropLast]

/-- C3 witness: the field `Replaces: 101, 102` with the standard URL
template becomes exactly the two links `101`, `102` joined by `", "`. -/
theorem processField_links_witness :
    (∀ t ∈ reSplit (bodyAstext [.paragraph [.text "101, 102"]]), (pyInt t).isSome) ∧
      processField maskId pepUrlDefault ⟨"Replaces", [.paragraph [.text "101, 102"]]⟩
        = .ok (⟨"Replaces", [.paragraph
            [Inline.reference "101" "https://peps.python.org/pep-0101/", .text ", ",
              Inline.reference "102" "https://peps.python.org/pep-0102/"]]⟩, false) :=
  ⟨by decide, by
    have h := processField_links maskId pepUrlDefault
      ⟨"Replaces", [.paragraph [.text "101, 102"]]⟩ [.text "101, 102"]
      (by decide) rfl (by decide)
    rw [h]
    rfl⟩

/-- The per-reference rewrite of the amended C5 claim: a reference whose
`refuri` starts with the mailing-list prefix gets its visible text replaced
by the soft classification of that *text* (unchanged when classification
fails with `ValueError`); all other nodes are unchanged. -/
def rewriteThreadSoft : Inline → Inline
  | .reference txt refuri =>
    if pyStartsWith refuri "https://mail.python.org" then
      match _pretty_thread txt with
      | .ok txt2 => .reference txt2 refuri
      | .error _ => .reference txt refuri
    else .reference txt refuri
  | n => n

theorem rewriteThreadChild_ok_soft {n y : Inline} (h : rewriteThreadChild n = .ok y) :
    y = rewriteThreadSoft n := by
  cases n with
  | text s =>
    injection h with h
    rw [← h]
    rfl
  | reference txt refuri =>
    unfold rewriteThreadChild at h
    unfold rewriteThreadSoft
    dsimp only at h ⊢
    by_cases hpre : pyStartsWith refuri "https://mail.python.org"
    · rw [if_pos hpre] at h
      rw [if_pos hpre]
      cases hp : _pretty_thread txt with
      | ok t2 =>
        rw [hp] at h
        dsimp only at h ⊢
        injection h with h
        exact h.symm
      | error e =>
        rw [hp] at h
        dsimp only at h
        exact absurd h (by simp)
    · rw [if_neg hpre] at h
      rw [if_neg hpre]
      injection h with h
      exact h.symm

theorem mapInPlace_ok_map {children cs : List Inline}
    (h : mapInPlace rewriteThreadChild children = .ok cs) :
    cs = children.map rewriteThreadSoft := by
  induction children generalizing cs with
  | nil =>
    unfold mapInPlace at h
    injection h with h
    rw [← h]
    rfl
  | cons x xs ih =>
    unfold mapInPlace at h
    cases hx : rewriteThreadChild x with
    | error e => rw [hx] at h; exact absurd h (by simp)
    | ok y =>
      rw [hx] at h
      cases hxs : mapInPlace rewriteThreadChild xs with
      | error p => rw [hxs] at h; cases p; exact absurd h (by simp)
      | ok ys =>
        rw [hxs] at h
        injection h with h
        rw [← h, List.map_cons, ← ih hxs, rewriteThreadChild_ok_soft hx]

theorem thread_not_mask {s : String} (h : s ∈ threadNames) : s ∉ maskNames := by
  intro hr
  simp only [threadNames, List.mem_cons, List.mem_singleton, List.not_mem_nil, or_false] at h
  rcases h with rfl | rfl <;> simp [maskNames] at hr

/-- C5 (amended): in a `discussions-to`/`resolution` field whose processing
completes without an exception, every reference whose `refuri` starts with
`https://mail.python.org` has its visible text replaced by the Thread-Label
Classifier applied to that *visible text* (left unchanged when
classification fails with `ValueError`); references without the prefix and
non-reference nodes are unchanged; the field is never marked for removal. -/
theorem processField_threads (mask : String → String → Inline) (pepUrl : Int → String)
    (f f2 : HeaderField) (children : List Inline) (rm : Bool)
    (hname : pyLower f.name ∈ threadNames)
    (hbody : f.body = [.paragraph children])
    (hok : processField mask pepUrl f = .ok (f2, rm)) :
    rm = false ∧ f2 = { f with body := [.paragraph (children.map rewriteThreadSoft)] } := by
  unfold processField at hok
  rw [hbody] at hok
  dsimp only at hok
  rw [if_neg (thread_not_mask hname), if_pos hname] at hok
  cases hmi : mapInPlace rewriteThreadChild children with
  | error p => rw [hmi] at hok; cases p; exact absurd hok (by simp)
  | ok cs =>
    rw [hmi] at hok
    injection hok with hok
    injection hok with h1 h2
    subst h2
    rw [← h1, mapInPlace_ok_map hmi]
    exact ⟨rfl, rfl⟩

/-- C5 witness: `processField` applied to a concrete `Discussions-To` field
holding a mailing-list reference. -/
theorem processField_threads_witness :
    processField maskId pepUrlDefault
        ⟨"Discussions-To",
          [.paragraph [.reference "https://mail.python.org/pipermail/ideas/2020-January/000123.html"
            "https://mail.python.org/pipermail/ideas/2020-January/000123.html"]]⟩
        = .ok (⟨"Discussions-To",
            [.paragraph [.reference "Ideas message"
              "https://mail.python.org/pipermail/ideas/2020-January/000123.html"]]⟩, false) ∧
      (false = false ∧
        (⟨"Discussions-To",
            [.paragraph [.reference "Ideas message"
              "https://mail.python.org/pipermail/ideas/2020-January/000123.html"]]⟩ : HeaderField)
          = { (⟨"Discussions-To",
                [.paragraph [.reference "https://mail.python.org/pipermail/ideas/2020-January/000123.html"
                  "https://mail.python.org/pipermail/ideas/2020-January/000123.html"]]⟩ : HeaderField)
              with body := [.paragraph
                ([Inline.reference "https://mail.python.org/pipermail/ideas/2020-January/000123.html"
                  "https://mail.python.org/pipermail/ideas/2020-January/000123.html"].map
                    rewriteThreadSoft)] }) :=
  ⟨by rfl,
    processField_threads maskId pepUrlDefault
      ⟨"Discussions-To",
        [.paragraph [.reference "https://mail.python.org/pipermail/ideas/2020-January/000123.html"
          "https://mail.python.org/pipermail/ideas/2020-January/000123.html"]]⟩
      _
      [.reference "https://mail.python.org/pipermail/ideas/2020-January/000123.html"
        "https://mail.python.org/pipermail/ideas/2020-January/000123.html"]
      false (by decide) rfl (by rfl)⟩

/-- The document whose `Discussions-To` reference has display text `"x"` but
a classifiable target URL. -/
def docThreadTextVsUri : Document :=
  ⟨"pep-0001.rst",
   [.header ["rfc2822"]
     [⟨"PEP", [.paragraph [.text "1"]]⟩,
      ⟨"Title", [.paragraph [.text "T"]]⟩,
      ⟨"Discussions-To",
        [.paragraph [.reference "x"
          "https://mail.python.org/pipermail/ideas/2020-January/000123.html"]]⟩]], []⟩

/-- C5 counterexample: the claim says the visible text is replaced by the
classifier applied to the *target URL* (`refuri`).  Here the `refuri`
classifies successfully to `"Ideas message"`, yet `apply` leaves the visible
text `"x"` unchanged, because the code classifies the node's *text*, not its
`refuri`. -/
theorem apply_thread_label_uses_text_cex :
    PEPHeaders.apply maskId pepUrlDefault docThreadTextVsUri = .ok docThreadTextVsUri ∧
      _pretty_thread "https://mail.python.org/pipermail/ideas/2020-January/000123.html"
        = .ok "Ideas message" ∧
      ("x" : String) ≠ "Ideas message" :=
  ⟨by rfl, by rfl, by decide⟩

/-- Does the field body pass the shape check of the loop: empty, or exactly
one paragraph element? -/
def isSingleParagraph : List BodyElem → Bool
  | [.paragraph _] => true
  | _ => false

def shapeOk (f : HeaderField) : Bool := f.body.isEmpty || isSingleParagraph f.body

/-- The six fail-fast conditions of the claim, as a predicate on the
document: empty tree; first element not an rfc2822 field list; first field
not named `pep`; value not an integer; fewer than two fields or second field
not named `title`; some field with a non-empty body that is not exactly one
paragraph. -/
def sixConditions (doc : Document) : Bool :=
  match doc.elems with
  | [] => true
  | .header classes fields :: _ =>
    (decide (¬ classes.contains "rfc2822" = true)) ||
    (match fields with
     | [] => false
     | pepField :: restF =>
       decide (pyLower pepField.name ≠ "pep") ||
       (pyInt (bodyAstext pepField.body)).isNone ||
       decide ((pepField :: restF).length < 2 ∨
         ((pepField :: restF).get? 1).map (fun f => pyLower f.name) ≠ some "title") ||
       (pepField :: restF).any (fun f => ! shapeOk f))
  | .pending _ :: _ => true
  | .other _ :: _ => true

def isIndexErr : Except PyExc String → Bool
  | .error (.indexError _) => true
  | _ => false

/-- A paragraph child that cannot raise during the thread rewrite: either it
is not a prefix-matching reference, or classifying its text does not raise
the uncaught `IndexError`. -/
def inlineHazardFree : Inline → Bool
  | .reference txt refuri =>
    !(pyStartsWith refuri "https://mail.python.org") || !(isIndexErr (_pretty_thread txt))
  | .text _ => true

/-- A field that cannot raise a non-`PEPParsingError` exception in the loop:
for a link-rewrite field every token parses as an integer, and for a thread
field every child is hazard free. -/
def fieldHazardFree (f : HeaderField) : Bool :=
  match f.body with
  | [.paragraph children] =>
    (if pyLower f.name ∈ linkNames then
      (reSplit (bodyAstext [.paragraph children])).all (fun t => (pyInt t).isSome)
     else true) &&
    (if pyLower f.name ∈ threadNames then children.all inlineHazardFree else true)
  | _ => true

/-- The document raises no non-`PEPParsingError` escape: its header (when
present) has at least one field — `header[0]` on an empty field list raises
`IndexError` — and every field is hazard free. -/
def noHazard (doc : Document) : Bool :=
  match doc.elems with
  | .header _ fields :: _ => (! fields.isEmpty) && fields.all fieldHazardFree
  | _ => true

theorem band_split {a b : Bool} (h : (a && b) = true) : a = true ∧ b = true := by
  cases a <;> cases b <;> simp_all

/-- Shared helper: `_pretty_thread` either succeeds or propagates an
`IndexError`; it never lets a `ValueError` out. -/
theorem pretty_thread_shape_cases (s : String) :
    (∃ t, _pretty_thread s = .ok t) ∨ (∃ m, _pretty_thread s = .error (.indexError m)) := by
  unfold _pretty_thread
  cases h : _process_list_url s with
  | ok p =>
    cases p with
    | mk n k => exact Or.inl ⟨n ++ " " ++ k, rfl⟩
  | error e =>
    cases e with
    | valueError m => exact Or.inl ⟨s, rfl⟩
    | indexError m => exact Or.inr ⟨m, rfl⟩

theorem rewriteThreadChild_ok_of_hazardFree {n : Inline} (h : inlineHazardFree n = true) :
    ∃ y, rewriteThreadChild n = .ok y := by
  cases n with
  | text s => exact ⟨.text s, rfl⟩
  | reference txt refuri =>
    unfold rewriteThreadChild
    dsimp only
    by_cases hpre : pyStartsWith refuri "https://mail.python.org"
    · rw [if_pos hpre]
      unfold inlineHazardFree at h
      dsimp only at h
      rw [hpre] at h
      simp only [Bool.not_true, Bool.false_or, Bool.not_eq_true'] at h
      rcases pretty_thread_shape_cases txt with ⟨t, ht⟩ | ⟨m, hm⟩
      · rw [ht]
        exact ⟨_, rfl⟩
      · rw [hm] at h
        simp [isIndexErr] at h
    · rw [if_neg hpre]
      exact ⟨_, rfl⟩

theorem mapInPlace_ok_of_hazardFree {children : List Inline}
    (h : children.all inlineHazardFree = true) :
    ∃ cs, mapInPlace rewriteThreadChild children = .ok cs := by
  induction children with
  | nil => exact ⟨[], rfl⟩
  | cons x xs ih =>
    have hx1 : inlineHazardFree x = true :=
      List.all_eq_true.mp h x (List.mem_cons_self x xs)
    have hx2 : xs.all inlineHazardFree = true := by
      rw [List.all_eq_true]
      intro z hz
      exact List.all_eq_true.mp h z (List.mem_cons_of_mem _ hz)
    obtain ⟨y, hy⟩ := rewriteThreadChild_ok_of_hazardFree hx1
    obtain ⟨cs, hcs⟩ := ih hx2
    refine ⟨y :: cs, ?_⟩
    unfold mapInPlace
    rw [hy, hcs]

/-- A hazard-free field with a valid body shape is processed without an
exception. -/
theorem processField_ok_of_hazardFree {mask : String → String → Inline} {pepUrl : Int → String}
    {f : HeaderField} (hhz : fieldHazardFree f = true) (hsh : shapeOk f = true) :
    ∃ pr, processField mask pepUrl f = .ok pr := by
  unfold processField
  cases hbody : f.body with
  | nil => exact ⟨(f, false), rfl⟩
  | cons b bs =>
    cases bs with
    | cons b2 bs2 =>
      unfold shapeOk at hsh
      rw [hbody] at hsh
      simp [isSingleParagraph] at hsh
    | nil =>
      cases b with
      | other t =>
        unfold shapeOk at hsh
        rw [hbody] at hsh
        simp [isSingleParagraph] at hsh
      | paragraph children =>
        dsimp only
        unfold fieldHazardFree at hhz
        rw [hbody] at hhz
        dsimp only at hhz
        obtain ⟨hhz1, hhz2⟩ := band_split hhz
        by_cases hmk : pyLower f.name ∈ maskNames
        · rw [if_pos hmk]
          exact ⟨_, rfl⟩
        · rw [if_neg hmk]
          by_cases hth : pyLower f.name ∈ threadNames
          · rw [if_pos hth]
            rw [if_pos hth] at hhz2
            obtain ⟨cs, hcs⟩ := mapInPlace_ok_of_hazardFree hhz2
            rw [hcs]
            exact ⟨_, rfl⟩
          · rw [if_neg hth]
            by_cases hlk : pyLower f.name ∈ linkNames
            · rw [if_pos hlk]
              rw [if_pos hlk] at hhz1
              rw [buildPepLinks_ok pepUrl _ (fun t ht => by
                have := List.all_eq_true.mp hhz1 t ht
                simpa using this)]
              exact ⟨_, rfl⟩
            · rw [if_neg hlk]
              by_cases hrv : pyLower f.name ∈ removeNames
              · rw [if_pos hrv]
                exact ⟨_, rfl⟩
              · rw [if_neg hrv]
                exact ⟨_, rfl⟩

/-- A field failing the body-shape check raises the structural
`PEPParsingError`, leaving the field untouched. -/
theorem processField_pepParsing_of_shapeBad {mask : String → String → Inline}
    {pepUrl : Int → String} {f : HeaderField} (h : shapeOk f = false) :
    ∃ m, processField mask pepUrl f = .error (.pepParsing m, f) := by
  unfold processField
  cases hbody : f.body with
  | nil =>
    unfold shapeOk at h
    rw [hbody] at h
    simp at h
  | cons b bs =>
    cases bs with
    | cons b2 bs2 => exact ⟨_, rfl⟩
    | nil =>
      cases b with
      | paragraph children =>
        unfold shapeOk at h
        rw [hbody] at h
        simp [isSingleParagraph] at h
      | other t => exact ⟨_, rfl⟩

/-- Conversely, a `PEPParsingError` from the loop body only arises from the
body-shape check. -/
theorem processField_pepParsing_imp_shapeBad {mask : String → String → Inline}
    {pepUrl : Int → String} {f f2 : HeaderField} {m : String}
    (h : processField mask pepUrl f = .error (.pepParsing m, f2)) : shapeOk f = false := by
  unfold processField at h
  cases hbody : f.body with
  | nil =>
    rw [hbody] at h
    exact absurd h (by simp)
  | cons b bs =>
    cases bs with
    | cons b2 bs2 =>
      unfold shapeOk
      rw [hbody]
      simp [isSingleParagraph]
    | nil =>
      cases b with
      | other t =>
        unfold shapeOk
        rw [hbody]
        simp [isSingleParagraph]
      | paragraph children =>
        exfalso
        rw [hbody] at h
        dsimp only at h
        by_cases hmk : pyLower f.name ∈ maskNames
        · rw [if_pos hmk] at h
          exact absurd h (by simp)
        · rw [if_neg hmk] at h
          by_cases hth : pyLower f.name ∈ threadNames
          · rw [if_pos hth] at h
            cases hmi : mapInPlace rewriteThreadChild children with
            | error p =>
              rw [hmi] at h
              cases p
              simp at h
            | ok cs =>
              rw [hmi] at h
              exact absurd h (by simp)
          · rw [if_neg hth] at h
            by_cases hlk : pyLower f.name ∈ linkNames
            · rw [if_pos hlk] at h
              cases hbl : buildPepLinks pepUrl (reSplit (bodyAstext [.paragraph children])) with
              | error e =>
                rw [hbl] at h
                simp at h
              | ok nb =>
                rw [hbl] at h
                exact absurd h (by simp)
            · rw [if_neg hlk] at h
              by_cases hrv : pyLower f.name ∈ removeNames
              · rw [if_pos hrv] at h
                exact absurd h (by simp)
              · rw [if_neg hrv] at h
                exact absurd h (by simp)

/-- An error escaping the loop is the error of the first failing field. -/
theorem processFields_error_source {mask : String → String → Inline} {pepUrl : Int → String} :
    ∀ {fields fs2 : List HeaderField} {e : Err},
      processFields mask pepUrl fields = .error (e, fs2) →
      ∃ f ∈ fields, ∃ f2, processField mask pepUrl f = .error (e, f2) := by
  intro fields
  induction fields with
  | nil =>
    intro fs2 e h
    exact absurd h (by simp [processFields])
  | cons f fs ih =>
    intro fs2 e h
    unfold processFields at h
    cases hf : processField mask pepUrl f with
    | error p =>
      rw [hf] at h
      cases p with
      | mk e2 f2 =>
        injection h with h
        injection h with h1 h2
        subst h1
        exact ⟨f, List.mem_cons_self f fs, f2, hf⟩
    | ok pr =>
      rw [hf] at h
      cases pr with
      | mk f2 rm =>
        cases hfs : processFields mask pepUrl fs with
        | error p =>
          rw [hfs] at h
          cases p with
          | mk e2 fs3 =>
            injection h with h
            injection h with h1 h2
            subst h1
            obtain ⟨g, hg, g2, hgp⟩ := ih hfs
            exact ⟨g, List.mem_cons_of_mem f hg, g2, hgp⟩
        | ok rest =>
          rw [hfs] at h
          exact absurd h (by simp)

/-- When every field is hazard free and some field fails the shape check,
the loop raises a `PEPParsingError`. -/
theorem processFields_pepParsing_of_anyBad {mask : String → String → Inline}
    {pepUrl : Int → String} :
    ∀ {fields : List HeaderField}, fields.all fieldHazardFree = true →
      fields.any (fun f => ! shapeOk f) = true →
      ∃ m fs2, processFields mask pepUrl fields = .error (.pepParsing m, fs2) := by
  intro fields
  induction fields with
  | nil =>
    intro hhz hany
    simp at hany
  | cons f fs ih =>
    intro hhz hany
    have hhzf : fieldHazardFree f = true :=
      List.all_eq_true.mp hhz f (List.mem_cons_self f fs)
    have hhzfs : fs.all fieldHazardFree = true := by
      rw [List.all_eq_true]
      intro z hz
      exact List.all_eq_true.mp hhz z (List.mem_cons_of_mem _ hz)
    by_cases hsh : shapeOk f = true
    · have hany2 : fs.any (fun f => ! shapeOk f) = true := by
        rcases List.any_eq_true.mp hany with ⟨g, hg, hgb⟩
        rcases List.mem_cons.mp hg with rfl | hg
        · rw [hsh] at hgb
          cases hgb
        · exact List.any_eq_true.mpr ⟨g, hg, hgb⟩
      obtain ⟨pr, hpr⟩ := @processField_ok_of_hazardFree mask pepUrl f hhzf hsh
      obtain ⟨m, fs2, hrec⟩ := ih hhzfs hany2
      cases pr with
      | mk f2 rm =>
        refine ⟨m, f2 :: fs2, ?_⟩
        unfold processFields
        rw [hpr, hrec]
    · have hshf : shapeOk f = false := by
        cases hv : shapeOk f
        · rfl
        · exact absurd hv hsh
      obtain ⟨m, hm⟩ := @processField_pepParsing_of_shapeBad mask pepUrl f hshf
      refine ⟨m, f :: fs, ?_⟩
      unfold processFields
      rw [hm]

/-- C6 (amended): provided the header's field list is non-empty and no field
can raise a non-structural escape — a `ValueError` from a non-integer token
in a `replaces`/`superseded-by`/`requires` body, or an uncaught `IndexError`
from thread-label classification — `apply` raises a `PEPParsingError` (the
single structural error kind, checked fail-fast in the claimed order) if and
only if one of the six conditions holds.  Without that proviso a
non-structural exception can be raised instead, preempting a later
structural check, as the counterexample shows. -/
theorem apply_pepParsing_iff (mask : String → String → Inline) (pepUrl : Int → String)
    (doc : Document)
    (hmatch : pathMatchesPep doc.source = true)
    (hhz : noHazard doc = true) :
    (∃ m d2, PEPHeaders.apply mask pepUrl doc = .error (.pepParsing m, d2))
      ↔ sixConditions doc = true := by
  constructor
  · rintro ⟨m, d2, happ⟩
    unfold PEPHeaders.apply at happ
    rw [if_neg (show ¬ ¬ pathMatchesPep doc.source = true by rw [hmatch]; simp)] at happ
    unfold sixConditions
    cases helems : doc.elems with
    | nil => rfl
    | cons first rest =>
      rw [helems] at happ
      cases first with
      | pending t => rfl
      | other t => rfl
      | header classes fields =>
        dsimp only at happ ⊢
        by_cases hcl : classes.contains "rfc2822"
        · rw [if_neg (show ¬ ¬ classes.contains "rfc2822" = true by rw [hcl]; simp)] at happ
          cases fields with
          | nil =>
            exfalso
            injection happ with h1
            injection h1 with h1 h2
            exact absurd h1 (by simp)
          | cons pepField restF =>
            dsimp only at happ ⊢
            by_cases hname : pyLower pepField.name = "pep"
            · rw [if_neg (show ¬ pyLower pepField.name ≠ "pep" by simp [hname])] at happ
              cases hint : pyInt (bodyAstext pepField.body) with
              | none => simp
              | some pepNum =>
                rw [hint] at happ
                dsimp only at happ
                unfold applyAfterNum at happ
                by_cases hT : ((pepField :: restF).length < 2 ∨
                    ((pepField :: restF).get? 1).map (fun f => pyLower f.name) ≠ some "title")
                · rw [decide_eq_true hT]
                  simp
                · rw [if_neg hT] at happ
                  cases hpf : processFields mask pepUrl (pepField :: restF) with
                  | ok processed =>
                    rw [hpf] at happ
                    exact absurd happ (by simp)
                  | error p =>
                    rw [hpf] at happ
                    cases p with
                    | mk e fs2 =>
                      injection happ with h1
                      injection h1 with h1 h2
                      subst h1
                      obtain ⟨f, hf, f2, hfp⟩ := processFields_error_source hpf
                      have hbad : shapeOk f = false := processField_pepParsing_imp_shapeBad hfp
                      have hany : (pepField :: restF).any (fun f => ! shapeOk f) = true :=
                        List.any_eq_true.mpr ⟨f, hf, by rw [hbad]; rfl⟩
                      rw [hany]
                      simp
            · rw [decide_eq_true hname]
              simp
        · rw [decide_eq_true hcl]
          simp
  · intro hsix
    unfold sixConditions at hsix
    unfold noHazard at hhz
    cases helems : doc.elems with
    | nil =>
      refine ⟨"Document tree is empty.", doc, ?_⟩
      unfold PEPHeaders.apply
      rw [if_neg (show ¬ ¬ pathMatchesPep doc.source = true by rw [hmatch]; simp)]
      rw [helems]
    | cons first rest =>
      rw [helems] at hsix hhz
      cases first with
      | pending t =>
        refine ⟨"Document does not begin with an RFC-2822 header; it is not a PEP.", doc, ?_⟩
        unfold PEPHeaders.apply
        rw [if_neg (show ¬ ¬ pathMatchesPep doc.source = true by rw [hmatch]; simp)]
        rw [helems]
      | other t =>
        refine ⟨"Document does not begin with an RFC-2822 header; it is not a PEP.", doc, ?_⟩
        unfold PEPHeaders.apply
        rw [if_neg (show ¬ ¬ pathMatchesPep doc.source = true by rw [hmatch]; simp)]
        rw [helems]
      | header classes fields =>
        dsimp only at hsix hhz
        obtain ⟨hne, hallhz⟩ := band_split hhz
        by_cases hcl : classes.contains "rfc2822"
        · have h0 : decide (¬ classes.contains "rfc2822" = true) = false := by
            rw [hcl]
            simp
          rw [h0, Bool.false_or] at hsix
          cases fields with
          | nil => exact absurd hsix (by simp)
          | cons pepField restF =>
            dsimp only at hsix
            by_cases hname : pyLower pepField.name = "pep"
            · cases hint : pyInt (bodyAstext pepField.body) with
              | none =>
                refine ⟨"'PEP' header must contain an integer. '"
                  ++ bodyAstext pepField.body ++ "' is invalid!", doc, ?_⟩
                unfold PEPHeaders.apply
                rw [if_neg (show ¬ ¬ pathMatchesPep doc.source = true by rw [hmatch]; simp)]
                rw [helems]
                dsimp only
                rw [if_neg (show ¬ ¬ classes.contains "rfc2822" = true by rw [hcl]; simp),
                  if_neg (show ¬ pyLower pepField.name ≠ "pep" by
                  simp [hname]), hint]
              | some pepNum =>
                have happly : PEPHeaders.apply mask pepUrl doc
                    = applyAfterNum mask pepUrl
                        (if pepNum = 0 then
                          { doc with
                              elems := .header classes (pepField :: restF)
                                :: .pending PEPZeroName :: rest,
                              pendingNotes := doc.pendingNotes ++ [PEPZeroName] }
                         else doc)
                        classes (pepField :: restF) := by
                  unfold PEPHeaders.apply
                  rw [if_neg (show ¬ ¬ pathMatchesPep doc.source = true by rw [hmatch]; simp)]
                  rw [helems]
                  dsimp only
                  rw [if_neg (show ¬ ¬ classes.contains "rfc2822" = true by rw [hcl]; simp),
                    if_neg (show ¬ pyLower pepField.name ≠ "pep" by simp [hname]), hint]
                rw [happly]
                unfold applyAfterNum
                by_cases hT : ((pepField :: restF).length < 2 ∨
                    ((pepField :: restF).get? 1).map (fun f => pyLower f.name) ≠ some "title")
                · rw [if_pos hT]
                  exact ⟨"No title!", _, rfl⟩
                · have h1 : decide (pyLower pepField.name ≠ "pep") = false := by simp [hname]
                  have h2 : (pyInt (bodyAstext pepField.body)).isNone = false := by simp [hint]
                  have h3 : decide ((pepField :: restF).length < 2 ∨
                      ((pepField :: restF).get? 1).map (fun f => pyLower f.name) ≠ some "title")
                      = false := by
                    simp only [decide_eq_false_iff_not]
                    exact hT
                  rw [h1, h2, h3, Bool.false_or, Bool.false_or, Bool.false_or] at hsix
                  obtain ⟨m, fs2, hpf⟩ :=
                    @processFields_pepParsing_of_anyBad mask pepUrl (pepField :: restF)
                      hallhz hsix
                  rw [if_neg hT, hpf]
                  exact ⟨m, _, rfl⟩
            · refine ⟨"Document does not contain an RFC-2822 'PEP' header!", doc, ?_⟩
              unfold PEPHeaders.apply
              rw [if_neg (show ¬ ¬ pathMatchesPep doc.source = true by rw [hmatch]; simp)]
              rw [helems]
              dsimp only
              rw [if_neg (show ¬ ¬ classes.contains "rfc2822" = true by rw [hcl]; simp),
                if_pos (by simp [hname])]
        · refine ⟨"Document does not begin with an RFC-2822 header; it is not a PEP.", doc, ?_⟩
          unfold PEPHeaders.apply
          rw [if_neg (show ¬ ¬ pathMatchesPep doc.source = true by rw [hmatch]; simp)]
          rw [helems]
          dsimp only
          rw [if_pos hcl]

/-- A document satisfying the sixth condition (the `Note` field has a
two-element body) in which an earlier `Requires` field carries a
non-integer token. -/
def docShapeAndInt : Document :=
  ⟨"pep-0001.rst",
   [.header ["rfc2822"]
     [⟨"PEP", [.paragraph [.text "1"]]⟩,
      ⟨"Title", [.paragraph [.text "T"]]⟩,
      ⟨"Requires", [.paragraph [.text "foo"]]⟩,
      ⟨"Note", [.paragraph [.text "a"], .paragraph [.text "b"]]⟩]], []⟩

/-- C6 counterexample: one of the six conditions holds (the `Note` field's
body has two elements), yet `apply` does not raise a `PEPParsingError`: the
earlier `Requires` field's `int("foo")` raises a plain `ValueError`, which
escapes and preempts the later structural shape check.  This refutes the
claimed equivalence as stated (and its parenthetical that every raised error
is of the `PEPParsingError` kind). -/
theorem apply_valueerror_preempts_cex :
    sixConditions docShapeAndInt = true ∧
      PEPHeaders.apply maskId pepUrlDefault docShapeAndInt
        = .error (.py (.valueError "invalid literal for int() with base 10: 'foo'"),
            docShapeAndInt) :=
  ⟨by rfl, by rfl⟩

/-- C6 witness: the amended equivalence applied to the concrete empty
document (condition one), which indeed raises a `PEPParsingError`. -/
theorem apply_pepParsing_iff_witness :
    pathMatchesPep ("pep-0001.rst") = true ∧
      noHazard (⟨"pep-0001.rst", [], []⟩ : Document) = true ∧
      sixConditions (⟨"pep-0001.rst", [], []⟩ : Document) = true ∧
      ∃ m d2, PEPHeaders.apply maskId pepUrlDefault ⟨"pep-0001.rst", [], []⟩
        = .error (.pepParsing m, d2) :=
  ⟨by rfl, by rfl, by rfl,
    (apply_pepParsing_iff maskId pepUrlDefault ⟨"pep-0001.rst", [], []⟩ (by rfl) (by rfl)).mpr
      (by rfl)⟩
